import Mathlib

/-!
Verification development for the coverage normalization and exclusion engine
(`cov` package: `base.py`, `excludes.py`, `tools/gcov.py`, `tools/llvm.py`,
`tools/cobertura.py`).

The Python sources are shallowly embedded: dictionaries become association
lists (`dictGet`/`dictSet`/`dictErase` mirror `d[k]`, `d[k] = v`, `del d[k]`,
keeping insertion order exactly as CPython does), Python `int` becomes `ℤ`,
fallible statements (`raise`, out-of-range indexing, `max(None, n)`) become
`Except String`.  Side-effecting diagnostics (`print` to stderr in
`excludes.warn`/`excludes.note`, the debug `print` in `GCOV8.stats`) have no
bearing on any state read later and are dropped from the state.
-/

/-- `dictGet k d` models Python `d.get(k)` / `k in d` on a `dict` embedded as
an association list with unique keys. -/
def dictGet {κ ν : Type} [DecidableEq κ] (k : κ) : List (κ × ν) → Option ν
  | [] => none
  | (k', v) :: d => if k' = k then some v else dictGet k d

/-- `dictSet k v d` models Python `d[k] = v`: an existing key keeps its
position, a new key is appended at the end (CPython insertion order). -/
def dictSet {κ ν : Type} [DecidableEq κ] (k : κ) (v : ν) : List (κ × ν) → List (κ × ν)
  | [] => [(k, v)]
  | (k', v') :: d => if k' = k then (k', v) :: d else (k', v') :: dictSet k v d

/-- `dictErase k d` models Python `del d[k]` (removing the unique binding of
`k`, a no-op when the key is absent -- the sources only delete present keys). -/
def dictErase {κ ν : Type} [DecidableEq κ] (k : κ) : List (κ × ν) → List (κ × ν)
  | [] => []
  | (k', v) :: d => if k' = k then d else (k', v) :: dictErase k d

/-- Does `pat` occur at the very front of `s`?  (Helper for substring search.) -/
def hasPrefixChars : List Char → List Char → Bool
  | [], _ => true
  | _ :: _, [] => false
  | p :: ps, c :: cs => p == c && hasPrefixChars ps cs

/-- Does `pat` occur anywhere inside `s`?  (Helper for substring search.) -/
def hasSubChars (pat : List Char) : List Char → Bool
  | [] => hasPrefixChars pat []
  | c :: cs' => hasPrefixChars pat (c :: cs') || hasSubChars pat cs'

/-- `strContains s pat` models `re.search` success for a regex that is a plain
string literal: does `pat` occur inside `s`? -/
def strContains (s pat : String) : Bool :=
  hasSubChars pat.data s.data

/-- The whitespace characters of Python `str.strip()` (ASCII range). -/
def pyIsSpace (c : Char) : Bool :=
  c == ' ' || c == '\t' || c == '\n' || c == '\r' || c == '\x0b' || c == '\x0c'

/-- Python `str.strip()` on the character list of a string. -/
def pyStrip (s : List Char) : List Char :=
  ((s.dropWhile pyIsSpace).reverse.dropWhile pyIsSpace).reverse

/-- Python `s.split(sep)` for a one-character separator, on character
lists. -/
def splitOnChar (c : Char) : List Char → List (List Char)
  | [] => [[]]
  | x :: xs =>
    let r := splitOnChar c xs
    if x == c then [] :: r
    else
      match r with
      | [] => [[x]]
      | h :: t => (x :: h) :: t

/-- Python `s.split(sep, 1)` for a one-character separator: the text before
and after the first occurrence, or `none` when the separator is absent. -/
def splitFirstChar (c : Char) : List Char → Option (List Char × List Char)
  | [] => none
  | x :: xs =>
    if x == c then some ([], xs)
    else (splitFirstChar c xs).map (fun p => (x :: p.1, p.2))

/-- Python `int(s)`: optional surrounding whitespace, optional sign, at least
one digit; any other shape raises `ValueError` (modelled as `none`). -/
def pyParseInt (s : List Char) : Option ℤ :=
  let t := pyStrip s
  let (sign, digits) :=
    match t with
    | '-' :: rest => ((-1 : ℤ), rest)
    | '+' :: rest => ((1 : ℤ), rest)
    | _ => ((1 : ℤ), t)
  if digits.isEmpty || !digits.all Char.isDigit then none
  else some (sign * digits.foldl (fun acc c => acc * 10 + (c.toNat - '0'.toNat : ℤ)) 0)

/-- Python `range(a, b)` over `int`, as a list. -/
def pyRange (a b : ℤ) : List ℤ :=
  (List.range (b - a).toNat).map (fun (i : ℕ) => a + (i : ℤ))

/-- Python `int(x)` applied to a non-integral value truncates toward zero. -/
def pyTrunc (q : ℚ) : ℤ :=
  if 0 ≤ q then ⌊q⌋ else ⌈q⌉

namespace excludes

/- The marker regexes of `excludes.py`:
`MATCHES_START = (?:G|L|GR)COV_EXCL_START` and friends.  Such a regex matches
somewhere in a line iff the line contains one of the three spelled-out
literals, so `re.search` success is substring containment.  `MATCHES_START`
has NO capture group (`(?:...)` is non-capturing); the tag-extracting regex
`MATCHES_TAGS = (?:G|L|GR)COV_EXCL_(?:START|LINE)\[([^\]]+)\]` is defined in
the source (together with its wrapper `matches_tags`) but never called. -/

/-- `matches_start(text)` succeeds (as a boolean): the line contains a
`*COV_EXCL_START` marker. -/
def matches_start (text : String) : Bool :=
  strContains text "GCOV_EXCL_START" || strContains text "LCOV_EXCL_START" ||
    strContains text "GRCOV_EXCL_START"

/-- `matches_stop(text)` succeeds. -/
def matches_stop (text : String) : Bool :=
  strContains text "GCOV_EXCL_STOP" || strContains text "LCOV_EXCL_STOP" ||
    strContains text "GRCOV_EXCL_STOP"

/-- `matches_end(text)` succeeds. -/
def matches_end (text : String) : Bool :=
  strContains text "GCOV_EXCL_END" || strContains text "LCOV_EXCL_END" ||
    strContains text "GRCOV_EXCL_END"

/-- `matches_line(text)` succeeds. -/
def matches_line (text : String) : Bool :=
  strContains text "GCOV_EXCL_LINE" || strContains text "LCOV_EXCL_LINE" ||
    strContains text "GRCOV_EXCL_LINE"

/-- `excl_block`: a closed excluded line range. -/
structure excl_block where
  start : ℤ
  stop : ℤ
deriving DecidableEq, Repr

/-- The mutable state of one `excludes` scan.  `last_start` keeps only the
`line_no` of the source's `file_ref` (its `column`/`match` fields feed only
the printed diagnostics).  `empties` models the Python `set` as a
duplicate-free list in insertion order. -/
structure state where
  inside_exclude : Bool := false
  last_start : ℤ := 0
  single_lines : List ℤ := []
  result : List excl_block := []
  empties : List ℤ := []
deriving DecidableEq, Repr

/-- `excludes.exclude(line_no)`: extend the most recently opened block when
contiguous, otherwise open a fresh single-line block and reset the
single-line buffer. -/
def exclude (st : state) (line_no : ℤ) : state :=
  match st.result.getLast? with
  | some b =>
    if b.stop + 1 = line_no then
      { st with result := st.result.dropLast ++ [{ b with stop := line_no }] }
    else
      { st with result := st.result ++ [⟨line_no, line_no⟩], single_lines := [] }
  | none =>
    { st with result := st.result ++ [⟨line_no, line_no⟩], single_lines := [] }

/-- `excludes.include_back(line_no)`: pop blocks whose start is `≥ line_no`,
then re-exclude the lines of the single-line buffer.  Python's `for line in
self.single_lines` iterates the list object captured at loop entry even
though `exclude` rebinds the attribute, hence the fold over the old list. -/
def include_back (st : state) (line_no : ℤ) : state :=
  let popped := { st with
    result := (st.result.reverse.dropWhile (fun b => line_no ≤ b.start)).reverse }
  st.single_lines.foldl exclude popped

/-- `excludes.on_line(line_no, text)`.  The source computes
`has_tags = matches_start(text)` (not `matches_tags`!) and then evaluates
`has_tags.group(1)`; `MATCHES_START` has no capture group, so every
non-blank line containing a START marker raises `IndexError: no such group`.
The whole tag-filtering block (and with it the START branch below) is
therefore unreachable on the success path; it is still modelled faithfully.
`warn`/`note` only print and are dropped. -/
def on_line (st : state) (line_no : ℤ) (text : String) : Except String state :=
  if (pyStrip text.data).isEmpty then
    .ok { st with empties := if line_no ∈ st.empties then st.empties else st.empties ++ [line_no] }
  else if matches_start text then
    -- `has_tags.group(1)` on a match of the group-less MATCHES_START regex
    .error "IndexError: no such group"
  else
    let switch_off := matches_stop text
    let st1 :=
      if matches_stop text then st
      else if matches_end text then st  -- warning printed when inside_exclude; no state change
      else if matches_start text then   -- unreachable here: the line 74 bug already raised
        let st' := if st.inside_exclude then include_back st st.last_start else st
        { st' with last_start := line_no, inside_exclude := true }
      else st
    let is_matching_line :=
      !matches_stop text && !matches_end text && !matches_start text && matches_line text
    let st2 :=
      if is_matching_line then { st1 with single_lines := st1.single_lines ++ [line_no] } else st1
    let st3 := if st2.inside_exclude || is_matching_line then exclude st2 line_no else st2
    .ok (if switch_off then { st3 with inside_exclude := false } else st3)

/-- `excludes.after_lines()`: on an unterminated START, warn (printed) and
roll back via `include_back`. -/
def after_lines (st : state) : state :=
  if st.inside_exclude then include_back st st.last_start else st

/-- `excludes.find_excl_blocks` on the already-read file contents (the
`FileNotFoundError` branch, which returns the untouched builder, concerns the
filesystem and is outside this embedding).  `enumerate(....split("\n"))`
numbers the lines 0, 1, 2, ...; `markers` is unused on any path that does not
raise (see `on_line`). -/
def find_excl_blocks (content : String) : Except String (List excl_block × List ℤ) := do
  let mut_st ← (splitOnChar '\n' content.data).foldlM
    (fun (p : ℤ × state) text => do
      let st' ← on_line p.2 p.1 ⟨text⟩
      pure (p.1 + 1, st'))
    ((0 : ℤ), ({} : state))
  let final := after_lines mut_st.2
  pure (final.result, final.empties)

/-- A Python dict record for one accumulated function, as built by
`FileInfo.append_as` and consumed by `_clean_functions` /
`clean_file_report`; every field of the underlying dict beyond `name` and
`count` may be absent. -/
structure fn_rec where
  name : String := ""
  count : ℤ := 0
  start_line : Option ℤ := none
  end_line : Option ℤ := none
  start_column : Option ℤ := none
  end_column : Option ℤ := none
  demangled : Option String := none
deriving DecidableEq, Repr

/-- `_clean_functions(lines, functions)`: keep a function iff some line of
`range(start_line, end_line + 1)` is a key of `lines` (the vestigial
`fn_set = {line + 1 for line, _ in []}` is the empty set); return the kept
records and the number dropped. -/
def _clean_functions (lines : List (ℤ × ℤ)) (functions : List (String × fn_rec)) :
    List (String × fn_rec) × ℤ :=
  functions.foldl
    (fun (acc : List (String × fn_rec) × ℤ) kf =>
      let start_line := (kf.2.start_line).getD 0
      let end_line := (kf.2.end_line).getD start_line
      let excluded :=
        !(pyRange start_line (end_line + 1)).any (fun l => (dictGet l lines).isSome)
      if excluded then (acc.1, acc.2 + 1) else (acc.1 ++ [kf], acc.2))
    ([], 0)

/-- Specification helper (C8): the keep condition of `_clean_functions` as a
predicate -- some line of the function's `[start_line, end_line]` span
(defaults 0 and `start_line`) is a key of the reduced line map. -/
def keepFn (lines : List (ℤ × ℤ)) (kf : String × fn_rec) : Bool :=
  (pyRange ((kf.2.start_line).getD 0)
      (((kf.2.end_line).getD ((kf.2.start_line).getD 0)) + 1)).any
    (fun l => (dictGet l lines).isSome)

/-- The `stats` dataclass counters. -/
structure stats where
  relevant : ℤ := 0
  covered : ℤ := 0
  excluded : ℤ := 0
deriving DecidableEq, Repr

/-- `stats.percent`: `int(covered * 10000 / relevant + 0.5) / 100` when
`relevant` is nonzero (Python `/` is exact on these magnitudes, modelled in
`ℚ`; `int()` truncates toward zero), else `0`. -/
def stats.percent (s : stats) : ℚ :=
  if s.relevant ≠ 0 then
    ((pyTrunc ((s.covered * 10000 : ℚ) / (s.relevant : ℚ) + 1 / 2) : ℤ) : ℚ) / 100
  else 0

/-- The `coverage_stats` dataclass (its `patches` list is never touched by the
modelled methods and is dropped). -/
structure coverage_stats where
  lines : stats := {}
  functions : stats := {}
deriving DecidableEq, Repr

/-- `coverage_stats._erase_line`: delete the line and bump the excluded
counter iff the key is present and (`hard_remove` or the hit count is 0). -/
def coverage_stats._erase_line (cs : coverage_stats) (lines : List (ℤ × ℤ)) (line_no : ℤ)
    (hard_remove : Bool) : coverage_stats × List (ℤ × ℤ) :=
  match dictGet line_no lines with
  | some v =>
    if hard_remove || v = 0 then
      ({ cs with lines := { cs.lines with excluded := cs.lines.excluded + 1 } },
        dictErase line_no lines)
    else (cs, lines)
  | none => (cs, lines)

/-- `coverage_stats.erase_lines`: hard-remove every line of every excluded
block, then soft-remove the blank lines.  Python iterates the `empties` set
in unspecified order; the model takes the duplicate-free list produced by
`excludes`. -/
def coverage_stats.erase_lines (cs : coverage_stats) (lines : List (ℤ × ℤ))
    (excluded_blocks : List excl_block) (empties : List ℤ) :
    coverage_stats × List (ℤ × ℤ) :=
  let afterBlocks := excluded_blocks.foldl
    (fun (p : coverage_stats × List (ℤ × ℤ)) b =>
      (pyRange b.start (b.stop + 1)).foldl
        (fun (q : coverage_stats × List (ℤ × ℤ)) line_no =>
          coverage_stats._erase_line q.1 q.2 line_no true)
        p)
    (cs, lines)
  empties.foldl
    (fun (q : coverage_stats × List (ℤ × ℤ)) line_no =>
      coverage_stats._erase_line q.1 q.2 line_no false)
    afterBlocks

/-- `l[i] = v` on a Python list: negative indices wrap from the end, an index
out of range raises `IndexError`. -/
def pyListSet (l : List (Option ℤ)) (i : ℤ) (v : Option ℤ) :
    Except String (List (Option ℤ)) :=
  let j := if i < 0 then i + l.length else i
  if 0 ≤ j ∧ j < (l.length : ℤ) then .ok (l.set j.toNat v) else .error "IndexError"

/-- The record returned by `coverage_stats.clean_file_report`. -/
structure file_report where
  name : String
  source_digest : String
  coverage : List (Option ℤ)
  functions : List fn_rec
deriving DecidableEq, Repr

/-- `coverage_stats.clean_file_report`: drop fully-excluded functions, update
the function counters, build the 0-indexed coverage array
(`[None] * size` then `cvg[line - 1] = val`), update the line counters, and
emit the record with the kept functions sorted by dict key. -/
def coverage_stats.clean_file_report (cs : coverage_stats) (name digest : String)
    (line_count : ℤ) (lines : List (ℤ × ℤ)) (functions : List (String × fn_rec)) :
    Except String (coverage_stats × file_report) := do
  let (functions, excluded_functions) := _clean_functions lines functions
  let cs := { cs with functions := { cs.functions with
    excluded := cs.functions.excluded + excluded_functions } }
  let cs := { cs with functions := { cs.functions with
    relevant := cs.functions.relevant + functions.length } }
  let cs := functions.foldl
    (fun c kf =>
      if kf.2.count ≠ 0 then
        { c with functions := { c.functions with covered := c.functions.covered + 1 } }
      else c)
    cs
  let size : ℤ :=
    if lines.isEmpty then 0
    else max line_count (((lines.map Prod.fst).max?).getD 0)
  let cvg0 : List (Option ℤ) := List.replicate size.toNat none
  let cs := { cs with lines := { cs.lines with
    relevant := cs.lines.relevant + lines.length } }
  let (cs, cvg) ← lines.foldlM
    (fun (p : coverage_stats × List (Option ℤ)) lv => do
      let c := if lv.2 ≠ 0 then
          { p.1 with lines := { p.1.lines with covered := p.1.lines.covered + 1 } }
        else p.1
      let cvg' ← pyListSet p.2 (lv.1 - 1) (some lv.2)
      pure (c, cvg'))
    (cs, cvg0)
  let sorted_keys := List.insertionSort (fun a b => a ≤ b) (functions.map Prod.fst)
  pure (cs,
    { name := name, source_digest := digest, coverage := cvg,
      functions := sorted_keys.filterMap (fun k => dictGet k functions) })

/-- The counter state of `clean_file_report` just before its per-line loop,
as a function of the kept function list and the excluded-function count. -/
def coverage_stats.clean_pre (cs : coverage_stats) (nlines : ℕ)
    (cleaned : List (String × fn_rec)) (excluded_functions : ℤ) : coverage_stats :=
  let cs := { cs with functions := { cs.functions with
    excluded := cs.functions.excluded + excluded_functions } }
  let cs := { cs with functions := { cs.functions with
    relevant := cs.functions.relevant + cleaned.length } }
  let cs := cleaned.foldl
    (fun c kf =>
      if kf.2.count ≠ 0 then
        { c with functions := { c.functions with covered := c.functions.covered + 1 } }
      else c)
    cs
  { cs with lines := { cs.lines with relevant := cs.lines.relevant + nlines } }

end excludes

namespace base

/-- `FunctionDecl` of `base.py` (all position/count/name fields optional). -/
structure FunctionDecl where
  start_line : Option ℤ := none
  end_line : Option ℤ := none
  start_column : Option ℤ := none
  end_column : Option ℤ := none
  execution_count : Option ℤ := none
  name : Option String := none
  demangled_name : Option String := none
deriving DecidableEq, Repr

/-- `LineDecl` of `base.py`. -/
structure LineDecl where
  number : ℤ
  count : ℤ
  unexecuted_block : Option Bool := none
deriving DecidableEq, Repr

/-- `FileInfo` of `base.py`. -/
structure FileInfo where
  functions : List FunctionDecl := []
  lines : List LineDecl := []
deriving DecidableEq, Repr

/-- One per-file accumulator entry: `coverage[name]` is the pair
`[ line-number → summed hit count, function-name → accumulated record ]`. -/
structure FileCov where
  lines : List (ℤ × ℤ) := []
  fns : List (String × excludes.fn_rec) := []
deriving DecidableEq, Repr

/-- The aggregator's `coverage` dict (the companion `paths` dict records only
the first concrete filesystem path seen and is not part of the maps the
claims speak about; it is dropped here). -/
def Coverage : Type := List (String × FileCov)

instance : DecidableEq Coverage := by
  unfold Coverage
  infer_instance

/-- One iteration of the first loop of `FileInfo.append_as`: ensure the
`name` accumulator exists, then sum the hit count into the line map. -/
def appendLine (c : Coverage) (name : String) (ld : LineDecl) : Coverage :=
  let fc := (dictGet name c).getD {}
  let cur := (dictGet ld.number fc.lines).getD 0
  dictSet name { fc with lines := dictSet ld.number (cur + ld.count) fc.lines } c

/-- One iteration of the second loop of `FileInfo.append_as`: skip inert
functions (missing `start_line`, `name` or `execution_count`); otherwise sum
the execution count and overwrite `start_line` unconditionally and
`end_line`/`start_column`/`end_column`/`demangled` whenever not `None`. -/
def appendFunction (c : Coverage) (name : String) (fd : FunctionDecl) : Coverage :=
  match fd.start_line, fd.name, fd.execution_count with
  | some sl, some fname, some ec =>
    let fc := (dictGet name c).getD {}
    let old := (dictGet fname fc.fns).getD { name := fname, count := 0 }
    let upd : excludes.fn_rec :=
      { old with
        count := old.count + ec
        start_line := some sl
        end_line := fd.end_line.elim old.end_line some
        start_column := fd.start_column.elim old.start_column some
        end_column := fd.end_column.elim old.end_column some
        demangled := fd.demangled_name.elim old.demangled some }
    dictSet name { fc with fns := dictSet fname upd fc.fns } c
  | _, _, _ => c

/-- `FileInfo.append_as(name, full_path, coverage, paths)` restricted to the
`coverage` accumulator: fold the lines, then the well-formed functions. -/
def append_as (fi : FileInfo) (name : String) (c : Coverage) : Coverage :=
  fi.functions.foldl (fun acc fd => appendFunction acc name fd)
    (fi.lines.foldl (fun acc ld => appendLine acc name ld) c)

/-- The aggregation pipeline over the (path, FileInfo) contributions, in
discovery order: `info.append_as(name, ...)` for each pair in turn. -/
def aggregate (contribs : List (String × FileInfo)) : Coverage :=
  contribs.foldl (fun c p => append_as p.2 p.1 c) []

/-- The flattened line view of an accumulator: per (file, line number) the
summed hit count if that line is present.  A file whose entry exists but has
an empty line map is indistinguishable from an absent file here, which is
exactly the information content of the "accumulated per-file line maps". -/
def flatLines (c : Coverage) : String → ℤ → Option ℤ :=
  fun name l => (dictGet name c).bind (fun fc => dictGet l fc.lines)

/-- The flattened function-count view of an accumulator: per (file, function
name) the accumulated execution count. -/
def flatCounts (c : Coverage) : String → String → Option ℤ :=
  fun name f => (dictGet name c).bind (fun fc => (dictGet f fc.fns).map (·.count))

end base

namespace gcov

/-- Python `line.split(sep, 1)` for a one-character separator: split at the
first occurrence only. -/
def splitFirst (s : String) (sep : Char) : List String :=
  match splitFirstChar sep s.data with
  | none => [s]
  | some (a, b) => [⟨a⟩, ⟨b⟩]

/-- The parser state of `GCOV8.stats`: the result dict plus the current
`filename`/`file` pair (filenames are kept as the stripped text of the
`file:` record; resolving relative names against `bin_dir` is a filesystem
concern outside this embedding). -/
structure G8State where
  result : List (String × base.FileInfo) := []
  filename : Option String := none
  file : Option base.FileInfo := none
deriving DecidableEq, Repr

/-- One line of `GCOV8.stats`'s loop.  A line without `:` is skipped; a
`file:` record flushes the previous `FileInfo` and starts a new one; a
`function:`/`lcount:` record must split into exactly the expected fields
(else the tuple unpacking raises `ValueError`), and its numeric fields go
through `int(...)` (raising `ValueError` on malformed text) whenever a
`file:` record is active; any other key falls through all branches. -/
def g8Line (st : G8State) (line : String) : Except String G8State :=
  match splitFirst line ':' with
  | [key, rest] =>
    if key = "file" then
      let st' :=
        match st.file, st.filename with
        | some f, some fn => { st with result := dictSet fn f st.result }
        | _, _ => st
      .ok { st' with filename := some ⟨pyStrip rest.data⟩, file := some {} }
    else if key = "function" then
      match splitOnChar ',' rest.data with
      | [start, stop, count, nm] =>
        match st.file with
        | some f =>
          match pyParseInt start, pyParseInt stop, pyParseInt count with
          | some s, some e, some c =>
            .ok { st with file := some { f with functions := f.functions ++
              [{ start_line := some s, end_line := some e, start_column := some 0,
                 end_column := some 0, execution_count := some c,
                 name := some ⟨pyStrip nm⟩ }] } }
          | _, _, _ => .error "ValueError: invalid literal for int()"
        | none => .ok st
      | _ => .error "ValueError: tuple unpacking"
    else if key = "lcount" then
      match splitOnChar ',' rest.data with
      | [lineNo, count, hasUnexec] =>
        match st.file with
        | some f =>
          match pyParseInt lineNo, pyParseInt count, pyParseInt hasUnexec with
          | some l, some c, some h =>
            .ok { st with file := some { f with lines := f.lines ++
              [{ number := l, count := c, unexecuted_block := some (h ≠ 0) }] } }
          | _, _, _ => .error "ValueError: invalid literal for int()"
        | none => .ok st
      | _ => .error "ValueError: tuple unpacking"
    else .ok st
  | _ => .ok st

/-- `GCOV8.stats` over the lines of one intermediate text file: fold the
per-line step, then flush the trailing `FileInfo`. -/
def GCOV8_stats (srcLines : List String) : Except String (List (String × base.FileInfo)) := do
  let st ← srcLines.foldlM g8Line ({} : G8State)
  match st.file, st.filename with
  | some f, some fn => pure (dictSet fn f st.result)
  | _, _ => pure st.result

end gcov

namespace llvm

/-- `CoverageSegment` of `tools/llvm.py`. -/
structure CoverageSegment where
  line : ℤ
  column : ℤ
  count : ℤ
  has_count : Bool
  is_entry : Bool
  is_gap : Bool
deriving DecidableEq, Repr

/-- `LCS` of `tools/llvm.py`. -/
structure LCS where
  line : ℤ
  execution_count : Option ℤ := none
deriving DecidableEq, Repr

/-- `_is_start_of_region(segment)`. -/
def _is_start_of_region (s : CoverageSegment) : Bool :=
  !s.is_gap && s.has_count && s.is_entry

/-- The `min_region_count` loop of `_line_coverage_stats`: count the
start-of-region segments, short-circuiting once the count exceeds 1. -/
def minRegionCount (line_segments : List CoverageSegment) : ℕ :=
  line_segments.foldl
    (fun n s => if 1 < n then n else if _is_start_of_region s then n + 1 else n) 0

/-- The `start_of_skipped_region` flag of `_line_coverage_stats`: the run is
non-empty and its first segment has a count and is a region entry. -/
def startOfSkippedRegion (line_segments : List CoverageSegment) : Bool :=
  match line_segments with
  | [] => false
  | s :: _ => s.has_count && s.is_entry

/-- The `mapped` flag of `_line_coverage_stats`. -/
def isMapped (line_segments : List CoverageSegment)
    (wrapped_segment : Option CoverageSegment) : Bool :=
  !startOfSkippedRegion line_segments &&
    ((match wrapped_segment with
      | some w => w.has_count
      | none => false) || decide (0 < minRegionCount line_segments))

/-- One step of the final loop of `_line_coverage_stats`: it evaluates
`max(cast(int, result.execution_count), segment.count)`; `typing.cast` is a
runtime no-op, so when `execution_count` is still `None` at a
start-of-region segment Python raises
`TypeError: '>' not supported between instances of 'int' and 'NoneType'`. -/
def maxStep (ec : Option ℤ) (s : CoverageSegment) : Except String (Option ℤ) :=
  if _is_start_of_region s then
    match ec with
    | some v => Except.ok (some (max v s.count))
    | none => Except.error "TypeError: max of int and NoneType"
  else Except.ok ec

/-- `_line_coverage_stats(line_segments, wrapped_segment, line)`. -/
def _line_coverage_stats (line_segments : List CoverageSegment)
    (wrapped_segment : Option CoverageSegment) (line : ℤ) : Except String LCS :=
  if !isMapped line_segments wrapped_segment then .ok { line := line }
  else do
    let ec ← line_segments.foldlM maxStep (wrapped_segment.map (·.count))
    pure { line := line, execution_count := ec }

/-- The loop body of `_line_coverage_iterator`, with `wrapped` already
updated for the current run (Python keeps the previous run in `segments` and
refreshes `wrapped` at the top of the next iteration, which is the same
thing).  The recursion is driven by a fuel counter: the wrapper supplies
enough fuel for every line-sorted segment list, and running out of fuel
models the Python `while` looping forever (when a segment's line lies below
the cursor, `index` never advances again). -/
def sweepAux (fuel : ℕ) (coverage : List CoverageSegment)
    (wrapped : Option CoverageSegment) (line : ℤ) : Except String (List LCS) :=
  match fuel with
  | 0 => .error "nontermination: out of fuel"
  | fuel + 1 =>
    match coverage with
    | [] => .ok []
    | s :: tl => do
      let run := (s :: tl).takeWhile (fun t => t.line == line)
      let lcs ← _line_coverage_stats run wrapped line
      let rec_tl ← sweepAux fuel ((s :: tl).dropWhile (fun t => t.line == line))
        (if run.isEmpty then wrapped else run.getLast?) (line + 1)
      pure (lcs :: rec_tl)

/-- `_line_coverage_iterator(coverage)`: start the cursor at the first
segment's line (0 for an empty list) with no wrapped segment, and collect the
yielded `LCS` values. -/
def _line_coverage_iterator (coverage : List CoverageSegment) :
    Except String (List LCS) :=
  sweepAux
    (((coverage.getLast?.elim 0 (fun s => s.line)) -
        (coverage.head?.elim 0 (fun s => s.line))).toNat + 1 + coverage.length)
    coverage none (coverage.head?.elim 0 (fun s => s.line))

/-- Specification helper: the run of segments lying on line `l` (for a
line-sorted segment list this is exactly the run the iterator batches). -/
def runAt (coverage : List CoverageSegment) (l : ℤ) : List CoverageSegment :=
  coverage.filter (fun t => t.line == l)

/-- Specification helper: the wrapped segment in effect at line `l` -- the
last segment of the last non-empty run before `l`, or the initial `w`. -/
def wrappedAt (coverage : List CoverageSegment) (w : Option CoverageSegment)
    (l : ℤ) : Option CoverageSegment :=
  match (coverage.filter (fun t => t.line < l)).getLast? with
  | some s => some s
  | none => w

/-- Specification helper: the sweep raises on a segment list exactly when its
first line's run is mapped while no wrapped segment exists yet, i.e. the run
does not start a skipped region but contains a start-of-region segment.
`sweepCrashes` names that condition. -/
def sweepCrashes (coverage : List CoverageSegment) : Bool :=
  let run := runAt coverage (coverage.head?.elim 0 (fun s => s.line))
  !startOfSkippedRegion run && decide (0 < minRegionCount run)

end llvm

namespace cobertura

/-- An `xml.etree.ElementTree` element: tag, attributes, text, children. -/
inductive XNode where
  | node (tag : String) (attribs : List (String × String)) (text : Option String)
      (children : List XNode)

/-- The element's tag. -/
def XNode.tag : XNode → String
  | .node t _ _ _ => t

/-- The element's attribute dict. -/
def XNode.attribs : XNode → List (String × String)
  | .node _ a _ _ => a

/-- The element's text. -/
def XNode.text : XNode → Option String
  | .node _ _ t _ => t

/-- The element's children. -/
def XNode.children : XNode → List XNode
  | .node _ _ _ c => c

/-- The `for child in root: if child.tag == T: x = child` scan: the last
child with the given tag, if any. -/
def lastChildTagged (t : String) (children : List XNode) : Option XNode :=
  children.foldl (fun acc c => if c.tag = t then some c else acc) none

/-- `diskname_from_xml(sources)`: the text of the only text-bearing child,
`None` unless there is exactly one. -/
def diskname_from_xml (sources : XNode) : Option String :=
  match sources.children.filterMap (fun c => c.text) with
  | [d] => some d
  | _ => none

/-- `os.path.join(a, b)` on POSIX (the host convention this model fixes, with
`os.sep = "/"`). -/
def pyJoin (a b : String) : String :=
  if b.data.head? = some '/' then b
  else if a = "" ∨ a.data.getLast? = some '/' then a ++ b
  else a ++ "/" ++ b

/-- One `<line>` child: `int(attrib["number"])` and `int(attrib["hits"])`,
skipped (`KeyError`/`ValueError` caught) unless both attributes are present
and numeric; `unexecuted_block` is fixed to `False`. -/
def lineOfNode (n : XNode) : Option base.LineDecl :=
  match (dictGet "number" n.attribs).bind (fun s => pyParseInt s.data),
      (dictGet "hits" n.attribs).bind (fun s => pyParseInt s.data) with
  | some num, some hits => some { number := num, count := hits, unexecuted_block := some false }
  | _, _ => none

/-- The sort key of `list(sorted(raw_lines))`: `LineDecl` has `order=True`,
so Python sorts (stably) by the field tuple; `unexecuted_block` is constantly
`False` here, so the effective key is `(number, count)`, and records tied on
that key are equal, making stability immaterial. -/
def lineLe (a b : base.LineDecl) : Prop :=
  a.number < b.number ∨ (a.number = b.number ∧ a.count ≤ b.count)

instance : DecidableRel lineLe := fun a b => by
  unfold lineLe
  infer_instance

/-- `list(sorted(raw_lines))`. -/
def sortLines (raw : List base.LineDecl) : List base.LineDecl :=
  List.insertionSort lineLe raw

/-- What one `<class>` element contributes to the result dict: its resolved
filename key and its sorted line list -- `none` when the class is skipped
(no `filename` attribute, no `lines` child, or no valid line entry). -/
def klassContribution (diskname : String) (k : XNode) :
    Option (String × List base.LineDecl) :=
  match dictGet "filename" k.attribs with
  | none => none
  | some fname =>
    match lastChildTagged "lines" k.children with
    | none => none
    | some ls =>
      let coverage := sortLines (ls.children.filterMap lineOfNode)
      if coverage.isEmpty then none else some (pyJoin diskname fname, coverage)

/-- The flattened `for package in packages: for classes in package: for klass
in classes:` iteration order. -/
def klassesOf (packages : XNode) : List XNode :=
  (packages.children.flatMap (fun p => p.children)).flatMap (fun c => c.children)

/-- The `diskname` resolution of `CoberturaXML.stats`: the single declared
source if there is exactly one, else the drive of the intermediate file's
absolute path (`drive`, an input of the model), with a trailing separator
appended when missing. -/
def disknameOf (drive : String) (root : XNode) : String :=
  let sources := lastChildTagged "sources" root.children
  let diskname := (sources.bind diskname_from_xml).getD drive
  if diskname.length ≠ 0 ∧ ¬(diskname.data.getLast? = some '\\' ∨ diskname.data.getLast? = some '/') then
    diskname ++ "/"
  else diskname

/-- `CoberturaXML.stats` on a parsed tree: walk every class, skip
non-contributing ones, and assign `result[filename] = FileInfo([], coverage)`
(dict assignment: a later class with the same resolved filename replaces the
earlier entry). -/
def CoberturaXML_stats (drive : String) (root : XNode) :
    List (String × base.FileInfo) :=
  match lastChildTagged "packages" root.children with
  | none => []
  | some packages =>
    let diskname := disknameOf drive root
    (klassesOf packages).foldl
      (fun acc k =>
        match klassContribution diskname k with
        | some (key, coverage) => dictSet key { functions := [], lines := coverage } acc
        | none => acc)
      []

/-- Specification helper for the replacement semantics: the contribution of
the last class (in document order) that resolves to `key` and actually
yields line entries. -/
def lastContribution (diskname : String) (klasses : List XNode) (key : String) :
    Option (List base.LineDecl) :=
  klasses.foldl
    (fun acc k =>
      match klassContribution diskname k with
      | some (kk, coverage) => if kk = key then some coverage else acc
      | none => acc)
    none

end cobertura

namespace base

/-- Specification helper (C3): the per-(file, line) contributions of a
contribution list, one unit per `LineDecl`. -/
def lineUnits (contribs : List (String × FileInfo)) : List (String × LineDecl) :=
  contribs.flatMap (fun p => p.2.lines.map (fun ld => (p.1, ld)))

/-- Specification helper (C3): the per-(file, function) contributions, one
unit per `FunctionDecl`. -/
def fnUnits (contribs : List (String × FileInfo)) : List (String × FunctionDecl) :=
  contribs.flatMap (fun p => p.2.functions.map (fun fd => (p.1, fd)))

/-- Specification helper (C3): the effect of one line unit on the flattened
line view. -/
def lstep (m : String → ℤ → Option ℤ) (u : String × LineDecl) :
    String → ℤ → Option ℤ :=
  fun n l =>
    if n = u.1 ∧ l = u.2.number then some ((m n l).getD 0 + u.2.count) else m n l

/-- Specification helper (C3): the effect of one function unit on the
flattened count view (inert functions contribute nothing). -/
def fstep (m : String → String → Option ℤ) (u : String × FunctionDecl) :
    String → String → Option ℤ :=
  match u.2.start_line, u.2.name, u.2.execution_count with
  | some _, some fname, some ec =>
    fun n f => if n = u.1 ∧ f = fname then some ((m n f).getD 0 + ec) else m n f
  | _, _, _ => m

end base

/-- Specification-side rounding (C9): round-half-up to an integer. -/
def roundHalfUp (q : ℚ) : ℤ := ⌊q + 1 / 2⌋

/-! ## Helper lemmas -/

theorem dictGet_dictSet_self {κ ν : Type} [DecidableEq κ] (k : κ) (v : ν)
    (d : List (κ × ν)) : dictGet k (dictSet k v d) = some v := by
  induction d with
  | nil => simp [dictGet, dictSet]
  | cons p d ih =>
    by_cases h : p.1 = k
    · simp [dictGet, dictSet, h]
    · simp [dictGet, dictSet, h, ih]

theorem dictGet_dictSet_ne {κ ν : Type} [DecidableEq κ] {k k' : κ} (v : ν)
    (d : List (κ × ν)) (h : k' ≠ k) :
    dictGet k' (dictSet k v d) = dictGet k' d := by
  induction d with
  | nil =>
    simp only [dictSet, dictGet]
    rw [if_neg (fun hh : k = k' => h hh.symm)]
  | cons p d ih =>
    simp only [dictSet]
    by_cases hp : p.1 = k
    · rw [if_pos hp]
      have hpk' : ¬ p.1 = k' := by
        intro hh
        apply h
        rw [← hh]
        exact hp
      simp only [dictGet]
      rw [if_neg hpk', if_neg hpk']
    · rw [if_neg hp]
      simp only [dictGet]
      by_cases hp' : p.1 = k'
      · rw [if_pos hp', if_pos hp']
      · rw [if_neg hp', if_neg hp', ih]

theorem dictGet_dictErase_ne {κ ν : Type} [DecidableEq κ] {k k' : κ}
    (d : List (κ × ν)) (h : k' ≠ k) :
    dictGet k' (dictErase k d) = dictGet k' d := by
  induction d with
  | nil => simp [dictErase]
  | cons p d ih =>
    simp only [dictErase]
    by_cases hp : p.1 = k
    · rw [if_pos hp]
      have hpk' : ¬ p.1 = k' := by
        intro hh
        apply h
        rw [← hh]
        exact hp
      simp only [dictGet]
      rw [if_neg hpk']
    · rw [if_neg hp]
      simp only [dictGet]
      by_cases hp' : p.1 = k'
      · rw [if_pos hp', if_pos hp']
      · rw [if_neg hp', if_neg hp', ih]

theorem dictGet_eq_none_of_not_mem {κ ν : Type} [DecidableEq κ] {k : κ}
    {d : List (κ × ν)} (h : k ∉ d.map Prod.fst) : dictGet k d = none := by
  induction d with
  | nil => rfl
  | cons p d ih =>
    simp only [List.map_cons, List.mem_cons] at h
    push_neg at h
    have hp : ¬ p.1 = k := fun hh => h.1 hh.symm
    simp only [dictGet]
    rw [if_neg hp]
    exact ih h.2

theorem dictErase_keys_sublist {κ ν : Type} [DecidableEq κ] (k : κ)
    (d : List (κ × ν)) : ((dictErase k d).map Prod.fst).Sublist (d.map Prod.fst) := by
  induction d with
  | nil => simp [dictErase]
  | cons p d ih =>
    by_cases hp : p.1 = k
    · simp only [dictErase, hp, if_pos rfl, List.map_cons]
      exact (List.sublist_cons_self _ _)
    · simp only [dictErase, hp, if_neg hp, List.map_cons]
      exact ih.cons₂ _

theorem dictGet_dictErase_self {κ ν : Type} [DecidableEq κ] {k : κ}
    {d : List (κ × ν)} (h : (d.map Prod.fst).Nodup) :
    dictGet k (dictErase k d) = none := by
  induction d with
  | nil => rfl
  | cons p d ih =>
    simp only [List.map_cons, List.nodup_cons] at h
    by_cases hp : p.1 = k
    · subst hp
      simp only [dictErase, if_pos rfl]
      exact dictGet_eq_none_of_not_mem h.1
    · simp [dictGet, dictErase, hp, ih h.2]

theorem dictGet_mem {κ ν : Type} [DecidableEq κ] {k : κ} {v : ν}
    {d : List (κ × ν)} (h : dictGet k d = some v) : (k, v) ∈ d := by
  induction d with
  | nil => simp [dictGet] at h
  | cons p d ih =>
    simp only [dictGet] at h
    by_cases hp : p.1 = k
    · rw [if_pos hp] at h
      have hpv : p = (k, v) := Prod.ext hp (Option.some.inj h)
      rw [← hpv]
      exact List.mem_cons_self _ _
    · rw [if_neg hp] at h
      exact List.mem_cons_of_mem _ (ih h)

theorem mem_pyRange {a b l : ℤ} : l ∈ pyRange a b ↔ a ≤ l ∧ l < b := by
  unfold pyRange
  constructor
  · intro hmem
    obtain ⟨i, hi, hl⟩ := List.mem_map.mp hmem
    rw [List.mem_range] at hi
    omega
  · intro hab
    refine List.mem_map.mpr ⟨(l - a).toNat, ?_, ?_⟩
    · rw [List.mem_range]
      omega
    · omega

/-! ## Claim C9 -/

/-- Claim C9: for all non-negative counters, `stats.percent` equals
`round(covered*10000/relevant)/100` with round-half-up, 0 when `relevant`
is 0; in particular covered=1, relevant=3 gives exactly 33.33. -/
theorem claim_C9_percent_rounding (c r e : ℤ) (hc : 0 ≤ c) (hr : 0 ≤ r) :
    excludes.stats.percent ⟨r, c, e⟩ =
      (if r = 0 then 0
        else ((roundHalfUp ((c : ℚ) * 10000 / (r : ℚ)) : ℤ) : ℚ) / 100) ∧
    excludes.stats.percent ⟨3, 1, 0⟩ = 3333 / 100 := by
  constructor
  · unfold excludes.stats.percent roundHalfUp pyTrunc
    by_cases h : r = 0
    · simp [h]
    · have hrpos : (0 : ℚ) < (r : ℚ) := by
        have : 0 < r := lt_of_le_of_ne hr (Ne.symm h)
        exact_mod_cast this
      have hnum : (0 : ℚ) ≤ (c : ℚ) * 10000 := by positivity
      have hq : (0 : ℚ) ≤ (c : ℚ) * 10000 / (r : ℚ) + 1 / 2 := by positivity
      simp only [h, if_neg h, ne_eq, not_false_eq_true, if_true, if_pos hq]
      norm_num
  · unfold excludes.stats.percent pyTrunc
    norm_num

/-- Witness for claim C9 at covered=1, relevant=3. -/
theorem claim_C9_percent_rounding_witness :
    excludes.stats.percent ⟨3, 1, 0⟩ = 3333 / 100 :=
  (claim_C9_percent_rounding 1 3 0 (by norm_num) (by norm_num)).2

/-- `Except.ok` on the left of a bind reduces. -/
theorem except_ok_bind {ε α β : Type} (a : α) (f : α → Except ε β) :
    (Except.ok a >>= f) = f a := rfl

/-- `Except.error` on the left of a bind short-circuits. -/
theorem except_error_bind {ε α β : Type} (e : ε) (f : α → Except ε β) :
    ((Except.error e : Except ε α) >>= f) = Except.error e := rfl

/-- `pure` on the left of a bind reduces. -/
theorem except_pure_bind {ε α β : Type} (a : α) (f : α → Except ε β) :
    ((pure a : Except ε α) >>= f) = f a := rfl

/-! ## Claim C1 -/

/-- Claim C1 (code bug): `on_line` computes `has_tags = matches_start(text)`
instead of `matches_tags(text)` and then calls `.group(1)` on a match of the
group-less `MATCHES_START` regex, so every non-blank line bearing a START
marker -- tagged or untagged -- raises `IndexError` instead of being
processed; and because `matches_start` never matches a LINE marker, a
tag-qualified LINE marker is honored even when no listed tag is active
(here: active tag set empty, yet line 7 is excluded). -/
theorem claim_C1_marker_processing_crashes :
    excludes.on_line {} 5 "// GCOV_EXCL_START" = .error "IndexError: no such group" ∧
    excludes.on_line {} 7 "int x; // GCOV_EXCL_LINE[WIN32]" =
      .ok { inside_exclude := false, last_start := 0, single_lines := [],
            result := [⟨7, 7⟩], empties := [] } := by
  constructor
  · rfl
  · rfl

/-! ## Claim C2 -/

/-- Claim C2 (code bug): `find_excl_blocks` enumerates the file's lines from
0, so the blank second line of `"x\n\ny"` is recorded as blank line 1, not 2
-- while the text-counter adapter keys its line map by the tool's 1-based
numbers (an `lcount:2,...` record yields line number 2), the numbering under
which `erase_lines` later looks the blank set up. -/
theorem claim_C2_line_numbering_mismatch :
    excludes.find_excl_blocks "x\n\ny" = .ok ([], [1]) ∧
    gcov.GCOV8_stats ["file:a.c", "lcount:2,7,0"] =
      .ok [("a.c",
        { functions := [],
          lines := [{ number := 2, count := 7, unexecuted_block := some false }] })] := by
  constructor
  · rfl
  · rfl

/-! ## Claim C5 -/

/-- Counterexample to claim C5: a `function:` record whose count field is not
numeric makes `GCOV8.stats` raise `ValueError`, aborting the whole parse
(the following `lcount:` record is never processed) instead of skipping the
single record. -/
theorem claim_C5_counterexample :
    gcov.GCOV8_stats ["file:a.c", "function:1,3,x,foo", "lcount:1,1,0"] =
      .error "ValueError: invalid literal for int()" := by
  rfl

/-- Claim C5 as amended: in `GCOV8.stats` only structurally irrelevant lines
are skipped (no colon, or an unrecognized key); a `function:` record with the
wrong field arity, or one with a malformed numeric field while a `file:`
record is active, raises `ValueError` which aborts the entire parse -- the
remaining records are not processed and the adapter returns no data. -/
theorem claim_C5_malformed_record_aborts_parse :
    (∀ (st : gcov.G8State) (l : String), splitFirstChar ':' l.data = none →
      gcov.g8Line st l = .ok st) ∧
    (∀ (st : gcov.G8State) (l key rest : String), gcov.splitFirst l ':' = [key, rest] →
      key ≠ "file" → key ≠ "function" → key ≠ "lcount" → gcov.g8Line st l = .ok st) ∧
    (∀ st : gcov.G8State,
      gcov.g8Line st "function:1,2" = .error "ValueError: tuple unpacking") ∧
    (∀ (st : gcov.G8State) (f : base.FileInfo), st.file = some f →
      gcov.g8Line st "function:1,3,x,foo" = .error "ValueError: invalid literal for int()") ∧
    (∀ (pre rest : List String) (bad : String) (st : gcov.G8State) (e : String),
      pre.foldlM gcov.g8Line {} = .ok st → gcov.g8Line st bad = .error e →
      gcov.GCOV8_stats (pre ++ bad :: rest) = .error e) := by
  refine ⟨?_, ?_, ?_, ?_, ?_⟩
  · intro st l h
    unfold gcov.g8Line gcov.splitFirst
    rw [h]
  · intro st l key rest h h1 h2 h3
    unfold gcov.g8Line
    rw [h]
    simp [h1, h2, h3]
  · intro st
    rfl
  · intro st f hf
    unfold gcov.g8Line
    simp [gcov.splitFirst, hf]
    rfl
  · intro pre rest bad st e hpre hbad
    unfold gcov.GCOV8_stats
    rw [List.foldlM_append, hpre, except_ok_bind, List.foldlM_cons, hbad,
      except_error_bind, except_error_bind]

/-- Witness for the amended claim C5: a colonless line is skipped with the
state unchanged, and a file with one malformed `function:` record parses to
an error. -/
theorem claim_C5_malformed_record_aborts_parse_witness :
    gcov.g8Line { result := [], filename := some "a.c", file := some {} } "junk line" =
      .ok { result := [], filename := some "a.c", file := some {} } ∧
    gcov.GCOV8_stats ["file:a.c", "function:1,3,x,foo", "lcount:1,1,0"] =
      .error "ValueError: invalid literal for int()" := by
  constructor
  · exact claim_C5_malformed_record_aborts_parse.1 _ "junk line" rfl
  · exact claim_C5_malformed_record_aborts_parse.2.2.2.2 ["file:a.c"] ["lcount:1,1,0"]
      "function:1,3,x,foo" { result := [], filename := some "a.c", file := some {} } _
      rfl (claim_C5_malformed_record_aborts_parse.2.2.2.1 _ {} rfl)

/-! ## Claim C6 -/

/-- The soft pass of `erase_lines` (the `empties` loop): keys not in the list
keep their lookup. -/
theorem soft_erase_lookup_notmem (es : List ℤ) :
    ∀ (cs : excludes.coverage_stats) (lines : List (ℤ × ℤ)) (l : ℤ), l ∉ es →
      dictGet l (es.foldl
        (fun (q : excludes.coverage_stats × List (ℤ × ℤ)) e =>
          excludes.coverage_stats._erase_line q.1 q.2 e false) (cs, lines)).2 =
        dictGet l lines := by
  induction es with
  | nil => intro cs lines l _; rfl
  | cons e es ih =>
    intro cs lines l hl
    have hle : l ≠ e := fun h => hl (h ▸ List.mem_cons_self e es)
    have hles : l ∉ es := fun h => hl (List.mem_cons_of_mem e h)
    rw [List.foldl_cons]
    have hstep :
        excludes.coverage_stats._erase_line cs lines e false =
          if dictGet e lines = some 0 then
            ({ cs with lines := { cs.lines with excluded := cs.lines.excluded + 1 } },
              dictErase e lines)
          else (cs, lines) := by
      unfold excludes.coverage_stats._erase_line
      cases hget : dictGet e lines with
      | none => simp [hget]
      | some v =>
        by_cases hv : v = 0
        · simp [hget, hv]
        · simp [hget, hv]
    rw [hstep]
    by_cases hc : dictGet e lines = some 0
    · rw [if_pos hc, ih _ _ _ hles]
      exact dictGet_dictErase_ne lines hle
    · rw [if_neg hc, ih _ _ _ hles]

/-- The soft pass of `erase_lines` characterized: a listed line is removed
iff it was present with hit count 0, and the excluded counter advances by the
number of such lines. -/
theorem soft_erase_characterization (es : List ℤ) :
    ∀ (cs : excludes.coverage_stats) (lines : List (ℤ × ℤ)),
      es.Nodup → (lines.map Prod.fst).Nodup →
      (∀ l ∈ es,
        dictGet l (es.foldl
          (fun (q : excludes.coverage_stats × List (ℤ × ℤ)) e =>
            excludes.coverage_stats._erase_line q.1 q.2 e false) (cs, lines)).2 =
          if dictGet l lines = some 0 then none else dictGet l lines) ∧
      ((es.foldl
          (fun (q : excludes.coverage_stats × List (ℤ × ℤ)) e =>
            excludes.coverage_stats._erase_line q.1 q.2 e false) (cs, lines)).1.lines.excluded =
        cs.lines.excluded + ((es.filter (fun l => dictGet l lines = some 0)).length : ℤ)) := by
  induction es with
  | nil =>
    intro cs lines _ _
    refine ⟨fun l hl => absurd hl (List.not_mem_nil l), ?_⟩
    simp
  | cons e es ih =>
    intro cs lines hnd hk
    rw [List.nodup_cons] at hnd
    rw [List.foldl_cons]
    have hstep :
        excludes.coverage_stats._erase_line cs lines e false =
          if dictGet e lines = some 0 then
            ({ cs with lines := { cs.lines with excluded := cs.lines.excluded + 1 } },
              dictErase e lines)
          else (cs, lines) := by
      unfold excludes.coverage_stats._erase_line
      cases hget : dictGet e lines with
      | none => simp [hget]
      | some v =>
        by_cases hv : v = 0
        · simp [hget, hv]
        · simp [hget, hv, Option.some.injEq]
    by_cases hc : dictGet e lines = some 0
    · rw [hstep, if_pos hc]
      have hk' : ((dictErase e lines).map Prod.fst).Nodup :=
        (dictErase_keys_sublist e lines).nodup hk
      obtain ⟨ihmem, ihcnt⟩ := ih _ (dictErase e lines) hnd.2 hk'
      refine ⟨?_, ?_⟩
      · intro l hl
        rcases List.mem_cons.mp hl with rfl | hl'
        · rw [soft_erase_lookup_notmem es _ _ l hnd.1, if_pos hc]
          exact dictGet_dictErase_self hk
        · have hle : l ≠ e := fun hh => hnd.1 (hh ▸ hl')
          rw [ihmem l hl', dictGet_dictErase_ne lines hle]
      · rw [ihcnt]
        have hfe : es.filter (fun l => dictGet l (dictErase e lines) = some 0) =
            es.filter (fun l => dictGet l lines = some 0) := by
          apply List.filter_congr
          intro l hl
          have hle : l ≠ e := fun hh => hnd.1 (hh ▸ hl)
          rw [dictGet_dictErase_ne lines hle]
        rw [hfe, List.filter_cons, if_pos (by simp [hc])]
        simp only [List.length_cons]
        push_cast
        ring
    · rw [hstep, if_neg hc]
      obtain ⟨ihmem, ihcnt⟩ := ih cs lines hnd.2 hk
      refine ⟨?_, ?_⟩
      · intro l hl
        rcases List.mem_cons.mp hl with rfl | hl'
        · rw [soft_erase_lookup_notmem es _ _ l hnd.1, if_neg hc]
        · exact ihmem l hl'
      · rw [ihcnt, List.filter_cons, if_neg (by simp [hc])]

/-- Counterexample to claim C6: blank line 3 is present in the line map with
hit count 7, yet `erase_lines` leaves it in place and counts nothing -- soft
removal is not "regardless of that line's hit count". -/
theorem claim_C6_counterexample :
    excludes.coverage_stats.erase_lines {} [(3, 7)] [] [3] = ({}, [(3, 7)]) := by
  rfl

/-- Claim C6 as amended: a blank line is removed from the line map and
counted toward the line-excluded counter iff it is present with hit count 0;
a blank line with a nonzero hit count is kept and not counted. -/
theorem claim_C6_blank_line_soft_removal (cs : excludes.coverage_stats)
    (lines : List (ℤ × ℤ)) (empties : List ℤ)
    (h1 : empties.Nodup) (h2 : (lines.map Prod.fst).Nodup) :
    (∀ l ∈ empties,
      dictGet l (excludes.coverage_stats.erase_lines cs lines [] empties).2 =
        if dictGet l lines = some 0 then none else dictGet l lines) ∧
    ((excludes.coverage_stats.erase_lines cs lines [] empties).1.lines.excluded =
      cs.lines.excluded +
        ((empties.filter (fun l => dictGet l lines = some 0)).length : ℤ)) := by
  have hmain := soft_erase_characterization empties cs lines h1 h2
  unfold excludes.coverage_stats.erase_lines
  rw [List.foldl_nil]
  exact hmain

/-- Witness for the amended claim C6: blank line 3 (count 7) survives with
its count, blank line 4 (count 0) is removed, and exactly one exclusion is
counted. -/
theorem claim_C6_blank_line_soft_removal_witness :
    dictGet (3 : ℤ)
        (excludes.coverage_stats.erase_lines {} [(3, 7), (4, 0)] [] [3, 4]).2 =
      some 7 ∧
    (excludes.coverage_stats.erase_lines {} [(3, 7), (4, 0)] [] [3, 4]).1.lines.excluded =
      (0 : ℤ) + ((([3, 4] : List ℤ).filter
        (fun l => dictGet l [((3 : ℤ), (7 : ℤ)), (4, 0)] = some 0)).length : ℤ) := by
  have h := claim_C6_blank_line_soft_removal {} [(3, 7), (4, 0)] [3, 4]
    (by decide) (by decide)
  exact ⟨(h.1 3 (by decide)).trans (by decide), h.2⟩

/-! ## Claim C8 -/

/-- `_clean_functions` as a filter: the fold keeps exactly the functions
satisfying `keepFn` (appended to the accumulator) and counts the rest. -/
theorem clean_functions_foldl (lines : List (ℤ × ℤ))
    (functions : List (String × excludes.fn_rec)) :
    ∀ acc : List (String × excludes.fn_rec) × ℤ,
      functions.foldl
        (fun (acc : List (String × excludes.fn_rec) × ℤ) kf =>
          let start_line := (kf.2.start_line).getD 0
          let end_line := (kf.2.end_line).getD start_line
          let excluded :=
            !(pyRange start_line (end_line + 1)).any (fun l => (dictGet l lines).isSome)
          if excluded then (acc.1, acc.2 + 1) else (acc.1 ++ [kf], acc.2)) acc =
      (acc.1 ++ functions.filter (excludes.keepFn lines),
        acc.2 + ((functions.filter (fun kf => !excludes.keepFn lines kf)).length : ℤ)) := by
  induction functions with
  | nil => intro acc; simp
  | cons kf fns ih =>
    intro acc
    rw [List.foldl_cons]
    by_cases hk : excludes.keepFn lines kf = true
    · have hexcl :
          (!(pyRange ((kf.2.start_line).getD 0)
              (((kf.2.end_line).getD ((kf.2.start_line).getD 0)) + 1)).any
            (fun l => (dictGet l lines).isSome)) = false := by
        unfold excludes.keepFn at hk
        simp [hk]
      simp only [hexcl, Bool.false_eq_true, if_false]
      rw [ih]
      rw [List.filter_cons, if_pos hk, List.filter_cons, if_neg (by simp [hk])]
      simp
    · have hexcl :
          (!(pyRange ((kf.2.start_line).getD 0)
              (((kf.2.end_line).getD ((kf.2.start_line).getD 0)) + 1)).any
            (fun l => (dictGet l lines).isSome)) = true := by
        unfold excludes.keepFn at hk
        simp only [Bool.not_eq_true] at hk
        simp [hk]
      simp only [hexcl, if_true]
      rw [ih]
      rw [List.filter_cons, if_neg (by simp [Bool.not_eq_true] at hk ⊢; exact hk),
        List.filter_cons, if_pos (by simp [Bool.not_eq_true] at hk ⊢; exact hk)]
      simp only [List.length_cons, Prod.mk.injEq]
      refine ⟨by trivial, ?_⟩
      push_cast
      ring

/-- Claim C8: a function survives `_clean_functions` iff some line of its
inclusive `[start_line, end_line]` span (with `end_line` defaulting to
`start_line`, and `start_line` to 0) is a key of the reduced line map; the
dropped-function counter is exactly the number of functions removed. -/
theorem claim_C8_function_drop_rule (lines : List (ℤ × ℤ))
    (functions : List (String × excludes.fn_rec)) (key : String)
    (fn : excludes.fn_rec) :
    ((key, fn) ∈ (excludes._clean_functions lines functions).1 ↔
      ((key, fn) ∈ functions ∧ ∃ l : ℤ, (fn.start_line).getD 0 ≤ l ∧
        l ≤ (fn.end_line).getD ((fn.start_line).getD 0) ∧
        (dictGet l lines).isSome)) ∧
    ((excludes._clean_functions lines functions).2 =
      (functions.length : ℤ) -
        (((excludes._clean_functions lines functions).1.length : ℕ) : ℤ)) := by
  have hfold := clean_functions_foldl lines functions ([], 0)
  have hres : excludes._clean_functions lines functions =
      (functions.filter (excludes.keepFn lines),
        ((functions.filter (fun kf => !excludes.keepFn lines kf)).length : ℤ)) := by
    unfold excludes._clean_functions
    rw [hfold]
    simp
  constructor
  · rw [hres]
    simp only [List.mem_filter]
    constructor
    · rintro ⟨hmem, hkeep⟩
      refine ⟨hmem, ?_⟩
      unfold excludes.keepFn at hkeep
      rw [List.any_eq_true] at hkeep
      obtain ⟨l, hl, hsome⟩ := hkeep
      rw [mem_pyRange] at hl
      have hl' : (fn.start_line).getD 0 ≤ l ∧
          l < (fn.end_line).getD ((fn.start_line).getD 0) + 1 := hl
      exact ⟨l, hl'.1, by omega, by simpa using hsome⟩
    · rintro ⟨hmem, l, h1, h2, h3⟩
      refine ⟨hmem, ?_⟩
      unfold excludes.keepFn
      rw [List.any_eq_true]
      refine ⟨l, ?_, by simpa using h3⟩
      have hmem : l ∈ pyRange ((fn.start_line).getD 0)
          ((fn.end_line).getD ((fn.start_line).getD 0) + 1) :=
        mem_pyRange.mpr ⟨h1, by omega⟩
      exact hmem
  · rw [hres]
    have hsplit : (functions.filter (fun kf => !excludes.keepFn lines kf)).length +
        (functions.filter (excludes.keepFn lines)).length = functions.length := by
      rw [← List.countP_eq_length_filter, ← List.countP_eq_length_filter, Nat.add_comm]
      have hc : List.countP (fun kf => !excludes.keepFn lines kf) functions =
          List.countP (fun a => decide ¬(excludes.keepFn lines a = true)) functions := by
        apply List.countP_congr
        intro a _
        by_cases h : excludes.keepFn lines a = true <;> simp [h]
      rw [hc]
      exact (List.length_eq_countP_add_countP (excludes.keepFn lines) functions).symm
    push_cast
    omega

/-! ## Claim C10 -/

/-- The last-writer fold of `lastContribution` only consults its starting
accumulator when no later class contributes. -/
theorem lastContribution_init (d : String) (key : String) (ks : List cobertura.XNode) :
    ∀ o : Option (List base.LineDecl),
      ks.foldl
        (fun acc k =>
          match cobertura.klassContribution d k with
          | some (kk, coverage) => if kk = key then some coverage else acc
          | none => acc) o =
      match cobertura.lastContribution d ks key with
      | some c => some c
      | none => o := by
  induction ks with
  | nil =>
    intro o
    rfl
  | cons k ks ih =>
    intro o
    have hlc : cobertura.lastContribution d (k :: ks) key =
        ks.foldl
          (fun acc k =>
            match cobertura.klassContribution d k with
            | some (kk, coverage) => if kk = key then some coverage else acc
            | none => acc)
          (match cobertura.klassContribution d k with
            | some (kk, coverage) => if kk = key then some coverage else none
            | none => none) := rfl
    rw [List.foldl_cons, hlc]
    cases hk : cobertura.klassContribution d k with
    | none =>
      simp only [hk]
      rw [ih o]
      rfl
    | some p =>
      obtain ⟨kk, cov⟩ := p
      simp only [hk]
      by_cases hkey : kk = key
      · rw [if_pos hkey, if_pos hkey, ih (some cov)]
        cases cobertura.lastContribution d ks key <;> rfl
      · rw [if_neg hkey, if_neg hkey, ih o]
        rfl

/-- The class walk of `CoberturaXML.stats` as a last-writer map: the lookup
of a resolved filename is the contribution of the last class that resolves to
it and yields line entries, falling back to the starting dict. -/
theorem cobertura_fold_lookup (d : String) (ks : List cobertura.XNode) :
    ∀ (acc : List (String × base.FileInfo)) (key : String),
      dictGet key (ks.foldl
        (fun acc k =>
          match cobertura.klassContribution d k with
          | some (kk, coverage) =>
            dictSet kk { functions := [], lines := coverage } acc
          | none => acc) acc) =
      match cobertura.lastContribution d ks key with
      | some cov => some { functions := [], lines := cov }
      | none => dictGet key acc := by
  induction ks with
  | nil =>
    intro acc key
    rfl
  | cons k ks ih =>
    intro acc key
    have hlc : cobertura.lastContribution d (k :: ks) key =
        ks.foldl
          (fun acc k =>
            match cobertura.klassContribution d k with
            | some (kk, coverage) => if kk = key then some coverage else acc
            | none => acc)
          (match cobertura.klassContribution d k with
            | some (kk, coverage) => if kk = key then some coverage else none
            | none => none) := rfl
    rw [List.foldl_cons, hlc]
    cases hk : cobertura.klassContribution d k with
    | none =>
      simp only [hk]
      rw [ih acc key]
      rfl
    | some p =>
      obtain ⟨kk, cov⟩ := p
      simp only [hk]
      rw [ih (dictSet kk { functions := [], lines := cov } acc) key,
        lastContribution_init d key ks]
      cases hrest : cobertura.lastContribution d ks key with
      | some c => rfl
      | none =>
        by_cases hkey : kk = key
        · rw [if_pos hkey]
          subst hkey
          exact (dictGet_dictSet_self kk _ acc).symm ▸ rfl
        · rw [if_neg hkey]
          exact (dictGet_dictSet_ne _ acc (fun hh => hkey hh.symm)).symm ▸ rfl

/-- Counterexample to claim C10: two classes declare `filename="f"`; the
second (last in document order) has a `lines` element with no valid
`(number, hits)` pair, so it is skipped and `stats` returns the FIRST class's
line entries for the path -- not the last class's (empty) entries. -/
theorem claim_C10_counterexample :
    cobertura.CoberturaXML_stats "" (.node "coverage" [] none
      [.node "packages" [] none
        [.node "package" [] none
          [.node "classes" [] none
            [.node "class" [("filename", "f")] none
              [.node "lines" [] none
                [.node "line" [("number", "1"), ("hits", "2")] none []]],
             .node "class" [("filename", "f")] none
              [.node "lines" [] none
                [.node "line" [("number", "9")] none []]]]]]]) =
      [("f",
        { functions := [],
          lines := [{ number := 1, count := 2, unexecuted_block := some false }] })] := by
  rfl

/-- Claim C10 as amended: within one hierarchical-XML file, the result for a
resolved path is the (sorted) line list of the LAST class in document order
that resolves to that path AND yields at least one valid line entry; classes
that are skipped (missing `filename`, missing `lines` element, or no valid
`(number, hits)` pair) do not replace an earlier class's entry, and when some
class contributes, earlier contributions are replaced, never merged. -/
theorem claim_C10_last_contributing_class_wins (drive : String)
    (root : cobertura.XNode) (key : String) :
    dictGet key (cobertura.CoberturaXML_stats drive root) =
      match cobertura.lastChildTagged "packages" root.children with
      | none => none
      | some packages =>
        (cobertura.lastContribution (cobertura.disknameOf drive root)
          (cobertura.klassesOf packages) key).map
          (fun cov => { functions := [], lines := cov }) := by
  unfold cobertura.CoberturaXML_stats
  cases hp : cobertura.lastChildTagged "packages" root.children with
  | none => rfl
  | some packages =>
    rw [cobertura_fold_lookup]
    cases hl : cobertura.lastContribution (cobertura.disknameOf drive root)
      (cobertura.klassesOf packages) key <;> simp [hl, dictGet]

/-! ## Claim C3 -/

/-- One line contribution updates the flattened line view pointwise. -/
theorem flatLines_appendLine (c : base.Coverage) (name : String)
    (ld : base.LineDecl) :
    base.flatLines (base.appendLine c name ld) =
      base.lstep (base.flatLines c) (name, ld) := by
  funext n l
  unfold base.flatLines base.appendLine base.lstep
  by_cases hn : n = name
  · subst hn
    rw [dictGet_dictSet_self]
    by_cases hl : l = ld.number
    · subst hl
      simp only [Option.some_bind]
      rw [dictGet_dictSet_self]
      cases hc : dictGet n c with
      | none => simp [hc, dictGet]
      | some fc0 => simp [hc]
    · simp only [Option.some_bind]
      rw [dictGet_dictSet_ne _ _ hl]
      cases hc : dictGet n c with
      | none => simp [hc, dictGet, hl]
      | some fc0 => simp [hc, hl]
  · rw [dictGet_dictSet_ne _ _ hn]
    simp [hn]

/-- A function contribution never changes the flattened line view (it can
only create an accumulator entry with an empty line map). -/
theorem flatLines_appendFunction (c : base.Coverage) (name : String)
    (fd : base.FunctionDecl) :
    base.flatLines (base.appendFunction c name fd) = base.flatLines c := by
  unfold base.appendFunction
  cases hs : fd.start_line with
  | none => rfl
  | some sl =>
    cases hn : fd.name with
    | none => rfl
    | some fname =>
      cases he : fd.execution_count with
      | none => rfl
      | some ec =>
        funext n l
        unfold base.flatLines
        by_cases hnn : n = name
        · subst hnn
          rw [dictGet_dictSet_self]
          cases hc : dictGet n c with
          | none => simp [hc, dictGet]
          | some fc0 => simp [hc]
        · rw [dictGet_dictSet_ne _ _ hnn]

/-- A line contribution never changes the flattened count view. -/
theorem flatCounts_appendLine (c : base.Coverage) (name : String)
    (ld : base.LineDecl) :
    base.flatCounts (base.appendLine c name ld) = base.flatCounts c := by
  funext n f
  unfold base.flatCounts base.appendLine
  by_cases hn : n = name
  · subst hn
    rw [dictGet_dictSet_self]
    cases hc : dictGet n c with
    | none => simp [hc, dictGet]
    | some fc0 => simp [hc]
  · rw [dictGet_dictSet_ne _ _ hn]

/-- One function contribution updates the flattened count view pointwise
(no-op for inert functions). -/
theorem flatCounts_appendFunction (c : base.Coverage) (name : String)
    (fd : base.FunctionDecl) :
    base.flatCounts (base.appendFunction c name fd) =
      base.fstep (base.flatCounts c) (name, fd) := by
  unfold base.appendFunction base.fstep
  cases hs : fd.start_line with
  | none => rfl
  | some sl =>
    cases hn : fd.name with
    | none => rfl
    | some fname =>
      cases he : fd.execution_count with
      | none => rfl
      | some ec =>
        funext n f
        unfold base.flatCounts
        by_cases hnn : n = name
        · subst hnn
          rw [dictGet_dictSet_self]
          by_cases hf : f = fname
          · subst hf
            simp only [Option.some_bind]
            rw [dictGet_dictSet_self]
            cases hc : dictGet n c with
            | none => simp [hc, dictGet, excludes.fn_rec.count]
            | some fc0 =>
              cases hold : dictGet f fc0.fns with
              | none => simp [hc, hold]
              | some old => simp [hc, hold]
          · simp only [Option.some_bind]
            rw [dictGet_dictSet_ne _ _ hf]
            cases hc : dictGet n c with
            | none => simp [hc, dictGet, hf]
            | some fc0 => simp [hc, hf]
        · rw [dictGet_dictSet_ne _ _ hnn]
          simp [hnn]

/-- The line loop of `append_as`, flattened. -/
theorem flatLines_lines_fold (lds : List base.LineDecl) (name : String) :
    ∀ c : base.Coverage,
      base.flatLines (lds.foldl (fun acc ld => base.appendLine acc name ld) c) =
        (lds.map (fun ld => (name, ld))).foldl base.lstep (base.flatLines c) := by
  induction lds with
  | nil => intro c; rfl
  | cons ld lds ih =>
    intro c
    rw [List.foldl_cons, List.map_cons, List.foldl_cons, ih,
      flatLines_appendLine]

/-- The function loop of `append_as` leaves the flattened line view alone. -/
theorem flatLines_fns_fold (fds : List base.FunctionDecl) (name : String) :
    ∀ c : base.Coverage,
      base.flatLines (fds.foldl (fun acc fd => base.appendFunction acc name fd) c) =
        base.flatLines c := by
  induction fds with
  | nil => intro c; rfl
  | cons fd fds ih =>
    intro c
    rw [List.foldl_cons, ih, flatLines_appendFunction]

/-- The line loop of `append_as` leaves the flattened count view alone. -/
theorem flatCounts_lines_fold (lds : List base.LineDecl) (name : String) :
    ∀ c : base.Coverage,
      base.flatCounts (lds.foldl (fun acc ld => base.appendLine acc name ld) c) =
        base.flatCounts c := by
  induction lds with
  | nil => intro c; rfl
  | cons ld lds ih =>
    intro c
    rw [List.foldl_cons, ih, flatCounts_appendLine]

/-- The function loop of `append_as`, flattened. -/
theorem flatCounts_fns_fold (fds : List base.FunctionDecl) (name : String) :
    ∀ c : base.Coverage,
      base.flatCounts (fds.foldl (fun acc fd => base.appendFunction acc name fd) c) =
        (fds.map (fun fd => (name, fd))).foldl base.fstep (base.flatCounts c) := by
  induction fds with
  | nil => intro c; rfl
  | cons fd fds ih =>
    intro c
    rw [List.foldl_cons, List.map_cons, List.foldl_cons, ih,
      flatCounts_appendFunction]

/-- The whole aggregation, flattened to the per-line contribution units. -/
theorem flatLines_aggregate_fold (l : List (String × base.FileInfo)) :
    ∀ c : base.Coverage,
      base.flatLines (l.foldl (fun c p => base.append_as p.2 p.1 c) c) =
        (base.lineUnits l).foldl base.lstep (base.flatLines c) := by
  induction l with
  | nil => intro c; rfl
  | cons p l ih =>
    intro c
    rw [List.foldl_cons, ih]
    unfold base.lineUnits
    rw [List.flatMap_cons, List.foldl_append]
    unfold base.append_as
    rw [flatLines_fns_fold, flatLines_lines_fold]

/-- The whole aggregation, flattened to the per-function contribution
units. -/
theorem flatCounts_aggregate_fold (l : List (String × base.FileInfo)) :
    ∀ c : base.Coverage,
      base.flatCounts (l.foldl (fun c p => base.append_as p.2 p.1 c) c) =
        (base.fnUnits l).foldl base.fstep (base.flatCounts c) := by
  induction l with
  | nil => intro c; rfl
  | cons p l ih =>
    intro c
    rw [List.foldl_cons, ih]
    unfold base.fnUnits
    rw [List.flatMap_cons, List.foldl_append]
    unfold base.append_as
    rw [flatCounts_fns_fold, flatCounts_lines_fold]

/-- `lstep` applied pointwise. -/
theorem lstep_apply (m : String → ℤ → Option ℤ) (u : String × base.LineDecl)
    (n : String) (l : ℤ) :
    base.lstep m u n l =
      if n = u.1 ∧ l = u.2.number then some ((m n l).getD 0 + u.2.count)
      else m n l := rfl

/-- Two line units commute: hit-count accumulation is a sum. -/
theorem lstep_comm (m : String → ℤ → Option ℤ)
    (u v : String × base.LineDecl) :
    base.lstep (base.lstep m u) v = base.lstep (base.lstep m v) u := by
  funext n l
  rw [lstep_apply (base.lstep m u) v, lstep_apply (base.lstep m v) u,
    lstep_apply m u, lstep_apply m v]
  split_ifs <;> first
    | rfl
    | (simp only [Option.getD_some]; exact congrArg some (by ring))

/-- `fstep` applied to a well-formed function unit. -/
theorem fstep_apply (m : String → String → Option ℤ)
    (u : String × base.FunctionDecl) (sl : ℤ) (fname : String) (ec : ℤ)
    (h1 : u.2.start_line = some sl) (h2 : u.2.name = some fname)
    (h3 : u.2.execution_count = some ec) :
    base.fstep m u = fun n f =>
      if n = u.1 ∧ f = fname then some ((m n f).getD 0 + ec) else m n f := by
  unfold base.fstep
  rw [h1, h2, h3]

/-- `fstep` on an inert function unit is the identity. -/
theorem fstep_inert (m : String → String → Option ℤ)
    (u : String × base.FunctionDecl)
    (h : u.2.start_line = none ∨ u.2.name = none ∨ u.2.execution_count = none) :
    base.fstep m u = m := by
  unfold base.fstep
  rcases h with h | h | h
  · rw [h]
  · rw [h]
    cases u.2.start_line <;> rfl
  · rw [h]
    cases u.2.start_line <;> cases u.2.name <;> rfl

/-- Two function units commute: execution-count accumulation is a sum. -/
theorem fstep_comm (m : String → String → Option ℤ)
    (u v : String × base.FunctionDecl) :
    base.fstep (base.fstep m u) v = base.fstep (base.fstep m v) u := by
  by_cases hwu : u.2.start_line = none ∨ u.2.name = none ∨ u.2.execution_count = none
  · rw [fstep_inert m u hwu, fstep_inert (base.fstep m v) u hwu]
  · by_cases hwv : v.2.start_line = none ∨ v.2.name = none ∨ v.2.execution_count = none
    · rw [fstep_inert m v hwv, fstep_inert (base.fstep m u) v hwv]
    · push_neg at hwu hwv
      obtain ⟨hu1, hu2, hu3⟩ := hwu
      obtain ⟨hv1, hv2, hv3⟩ := hwv
      obtain ⟨slu, hu1⟩ := Option.ne_none_iff_exists'.mp hu1
      obtain ⟨fnu, hu2⟩ := Option.ne_none_iff_exists'.mp hu2
      obtain ⟨ecu, hu3⟩ := Option.ne_none_iff_exists'.mp hu3
      obtain ⟨slv, hv1⟩ := Option.ne_none_iff_exists'.mp hv1
      obtain ⟨fnv, hv2⟩ := Option.ne_none_iff_exists'.mp hv2
      obtain ⟨ecv, hv3⟩ := Option.ne_none_iff_exists'.mp hv3
      rw [fstep_apply (base.fstep m u) v slv fnv ecv hv1 hv2 hv3,
        fstep_apply (base.fstep m v) u slu fnu ecu hu1 hu2 hu3,
        fstep_apply m u slu fnu ecu hu1 hu2 hu3,
        fstep_apply m v slv fnv ecv hv1 hv2 hv3]
      funext n f
      simp only []
      split_ifs <;> first
        | rfl
        | (simp only [Option.getD_some]; exact congrArg some (by ring))

/-- Counterexample to claim C3: two contributions to file "a" carry the same
function "f" with different `start_line`s; folding them in the two orders
yields different accumulated `start_line` fields (each overwrite keeps the
last contribution's position), so aggregation is not commutative on the
position fields. -/
theorem claim_C3_counterexample :
    ((dictGet "a" (base.aggregate
        [("a",
          { functions :=
              [{ start_line := some 1, execution_count := some 1, name := some "f" }],
            lines := [] }),
         ("a",
          { functions :=
              [{ start_line := some 2, execution_count := some 1, name := some "f" }],
            lines := [] })])).bind
      (fun fc => dictGet "f" fc.fns)).map (fun r => r.start_line) = some (some 2) ∧
    ((dictGet "a" (base.aggregate
        [("a",
          { functions :=
              [{ start_line := some 2, execution_count := some 1, name := some "f" }],
            lines := [] }),
         ("a",
          { functions :=
              [{ start_line := some 1, execution_count := some 1, name := some "f" }],
            lines := [] })])).bind
      (fun fc => dictGet "f" fc.fns)).map (fun r => r.start_line) = some (some 1) := by
  constructor
  · rfl
  · rfl

/-- Claim C3 as amended: aggregation is commutative and associative on the
accumulated line maps (summed hit counts) and on the accumulated function
execution counts -- any permutation of the contributions yields the same
flattened views.  The position fields (`start_line`, `end_line`, columns,
`demangled`) are last-writer-wins overwrites and agree across permutations
only when all contributions to a function carry the same values. -/
theorem claim_C3_aggregation_commutes_on_counts
    (l1 l2 : List (String × base.FileInfo)) (h : l1.Perm l2) :
    base.flatLines (base.aggregate l1) = base.flatLines (base.aggregate l2) ∧
    base.flatCounts (base.aggregate l1) = base.flatCounts (base.aggregate l2) := by
  constructor
  · unfold base.aggregate
    rw [flatLines_aggregate_fold l1 [], flatLines_aggregate_fold l2 []]
    exact (List.Perm.flatMap_right _ h).foldl_eq'
      (fun x _ y _ z => lstep_comm z x y) _
  · unfold base.aggregate
    rw [flatCounts_aggregate_fold l1 [], flatCounts_aggregate_fold l2 []]
    exact (List.Perm.flatMap_right _ h).foldl_eq'
      (fun x _ y _ z => fstep_comm z x y) _

/-- Witness for the amended claim C3 at a concrete two-element swap. -/
theorem claim_C3_aggregation_commutes_on_counts_witness :
    base.flatLines (base.aggregate
        [("a", { functions := [], lines := [{ number := 1, count := 2 }] }),
         ("a", { functions := [], lines := [{ number := 1, count := 3 }] })]) =
      base.flatLines (base.aggregate
        [("a", { functions := [], lines := [{ number := 1, count := 3 }] }),
         ("a", { functions := [], lines := [{ number := 1, count := 2 }] })]) ∧
    base.flatCounts (base.aggregate
        [("a", { functions := [], lines := [{ number := 1, count := 2 }] }),
         ("a", { functions := [], lines := [{ number := 1, count := 3 }] })]) =
      base.flatCounts (base.aggregate
        [("a", { functions := [], lines := [{ number := 1, count := 3 }] }),
         ("a", { functions := [], lines := [{ number := 1, count := 2 }] })]) :=
  claim_C3_aggregation_commutes_on_counts _ _ (List.Perm.swap _ _ [])

/-! ## Claim C7 -/

/-- Every member is bounded by the running maximum of `List.foldl max`. -/
theorem le_foldl_max (xs : List ℤ) :
    ∀ (a x : ℤ), (x = a ∨ x ∈ xs) → x ≤ xs.foldl max a := by
  induction xs with
  | nil =>
    intro a x h
    rcases h with rfl | h
    · exact le_refl x
    · exact absurd h (List.not_mem_nil x)
  | cons b xs ih =>
    intro a x h
    rw [List.foldl_cons]
    have hmb : max a b ≤ xs.foldl max (max a b) := ih (max a b) (max a b) (Or.inl rfl)
    rcases h with rfl | h
    · exact le_trans (le_max_left x b) hmb
    · rcases List.mem_cons.mp h with rfl | h
      · exact le_trans (le_max_right a x) hmb
      · exact ih (max a b) x (Or.inr h)

/-- Every member of a list of line numbers is at most `max?.getD 0` once the
list is non-empty. -/
theorem le_max?_getD {xs : List ℤ} {x : ℤ} (h : x ∈ xs) :
    x ≤ (xs.max?).getD 0 := by
  cases xs with
  | nil => exact absurd h (List.not_mem_nil x)
  | cons a xs =>
    rw [List.max?_cons', Option.getD_some]
    rcases List.mem_cons.mp h with heq | hmem
    · exact le_foldl_max xs a x (Or.inl heq)
    · exact le_foldl_max xs a x (Or.inr hmem)

/-- `pyListSet` at an in-range non-negative index. -/
theorem pyListSet_in_range (cvg : List (Option ℤ)) (i : ℤ) (v : Option ℤ)
    (h0 : 0 ≤ i) (h1 : i < (cvg.length : ℤ)) :
    excludes.pyListSet cvg i v = .ok (cvg.set i.toNat v) := by
  unfold excludes.pyListSet
  rw [if_neg (show ¬ i < 0 by omega)]
  rw [if_pos (show 0 ≤ i ∧ i < (cvg.length : ℤ) from ⟨h0, h1⟩)]

/-- The coverage-array loop of `clean_file_report`: it succeeds when every
line number is in range, sets entry `line - 1` to the hit count, and leaves
everything else alone. -/
theorem cvg_foldlM (lvs : List (ℤ × ℤ)) :
    ∀ (cs : excludes.coverage_stats) (cvg : List (Option ℤ)),
      (∀ p ∈ lvs, p.1 - 1 < (cvg.length : ℤ)) →
      (∀ p ∈ lvs, 1 ≤ p.1) →
      ((lvs.map Prod.fst).Nodup) →
      ∃ (cs' : excludes.coverage_stats) (cvg' : List (Option ℤ)),
        lvs.foldlM
          (fun (p : excludes.coverage_stats × List (Option ℤ)) lv => do
            let c := if lv.2 ≠ 0 then
                { p.1 with lines := { p.1.lines with
                  covered := p.1.lines.covered + 1 } }
              else p.1
            let cvg2 ← excludes.pyListSet p.2 (lv.1 - 1) (some lv.2)
            pure (c, cvg2))
          (cs, cvg) = .ok (cs', cvg') ∧
        cvg'.length = cvg.length ∧
        (∀ l v, (l, v) ∈ lvs → cvg'[(l - 1).toNat]? = some (some v)) ∧
        (∀ i : ℕ, (∀ l v, (l, v) ∈ lvs → (l - 1).toNat ≠ i) → cvg'[i]? = cvg[i]?) := by
  induction lvs with
  | nil =>
    intro cs cvg _ _ _
    refine ⟨cs, cvg, rfl, rfl, ?_, ?_⟩
    · intro l v h
      exact absurd h (List.not_mem_nil _)
    · intro i _
      rfl
  | cons lv lvs ih =>
    obtain ⟨l, v⟩ := lv
    intro cs cvg hbound hone hnd
    have hl1 : (1 : ℤ) ≤ l := hone (l, v) (List.mem_cons_self _ _)
    have hlb : l - 1 < (cvg.length : ℤ) := hbound (l, v) (List.mem_cons_self _ _)
    have hset := pyListSet_in_range cvg (l - 1) (some v) (by omega) hlb
    simp only [List.map_cons, List.nodup_cons] at hnd
    have hlen1 : (cvg.set (l - 1).toNat (some v)).length = cvg.length :=
      List.length_set cvg _ _
    obtain ⟨cs', cvg', hfold, hlen, hmem, hsame⟩ :=
      ih (if v ≠ 0 then
            { cs with lines := { cs.lines with covered := cs.lines.covered + 1 } }
          else cs)
        (cvg.set (l - 1).toNat (some v))
        (fun p hp => by rw [hlen1]; exact hbound p (List.mem_cons_of_mem _ hp))
        (fun p hp => hone p (List.mem_cons_of_mem _ hp)) hnd.2
    refine ⟨cs', cvg', ?_, ?_, ?_, ?_⟩
    · simp only [List.foldlM_cons]
      simp only [hset, except_ok_bind, except_pure_bind]
      exact hfold
    · rw [hlen, hlen1]
    · intro l' v' hmem'
      rcases List.mem_cons.mp hmem' with heq | hmem'
      · injection heq with h1eq h2eq
        rw [h1eq, h2eq]
        have huntouched : ∀ la va, (la, va) ∈ lvs → (la - 1).toNat ≠ (l - 1).toNat := by
          intro la va hin hidx
          have hla : (1 : ℤ) ≤ la := hone (la, va) (List.mem_cons_of_mem _ hin)
          have hne : la ≠ l := by
            intro hh
            exact hnd.1 (hh ▸ List.mem_map.mpr ⟨(la, va), hin, rfl⟩)
          omega
        rw [hsame _ huntouched]
        have hidx : (l - 1).toNat < cvg.length := by omega
        exact List.getElem?_set_self hidx
      · exact hmem _ _ hmem'
    · intro i hi
      have huntouched : ∀ la va, (la, va) ∈ lvs → (la - 1).toNat ≠ i :=
        fun la va hin => hi la va (List.mem_cons_of_mem _ hin)
      rw [hsame i huntouched]
      have hne : (l - 1).toNat ≠ i := hi l v (List.mem_cons_self _ _)
      exact List.getElem?_set_ne hne

/-- The sorted-keys lookup list projects, through `name`, to a sublist of the
keys. -/
theorem map_name_filterMap_sublist (cleaned : List (String × excludes.fn_rec))
    (hname : ∀ kf ∈ cleaned, kf.2.name = kf.1) :
    ∀ ks : List String,
      ((ks.filterMap (fun k => dictGet k cleaned)).map
        (fun f => f.name)).Sublist ks := by
  intro ks
  induction ks with
  | nil => simp
  | cons k ks ih =>
    rw [List.filterMap_cons]
    cases hg : dictGet k cleaned with
    | none => exact ih.cons k
    | some f =>
      rw [List.map_cons]
      have hfk : f.name = k := hname (k, f) (dictGet_mem hg)
      rw [hfk]
      exact ih.cons₂ k

/-- Counterexample to claim C7: an empty reduced line map with a declared
total of 3 lines yields a coverage array of length 0, not
`max(3, highest) = 3`. -/
theorem claim_C7_counterexample :
    (excludes.coverage_stats.clean_file_report {} "n" "d" 3 [] []).map
        (fun p => p.2.coverage.length) = .ok 0 ∧ (0 : ℕ) ≠ 3 := by
  constructor
  · rfl
  · decide

/-- Claim C7 as amended: the file record's coverage array has length
`max(declared line count, highest remaining line number)` when the reduced
line map is non-empty but length 0 when the map is empty (not `max(...)` as
claimed); entry `line - 1` holds the hit count for every present line, every
other entry is null, and the function list is sorted by function name. -/
theorem claim_C7_file_record_shape (cs : excludes.coverage_stats)
    (name digest : String) (line_count : ℤ) (lines : List (ℤ × ℤ))
    (functions : List (String × excludes.fn_rec))
    (h1 : (lines.map Prod.fst).Nodup)
    (h2 : ∀ p ∈ lines, 1 ≤ p.1)
    (h3 : ∀ kf ∈ functions, kf.2.name = kf.1) :
    ∃ (cs' : excludes.coverage_stats) (rep : excludes.file_report),
      excludes.coverage_stats.clean_file_report cs name digest line_count lines functions =
        .ok (cs', rep) ∧
      rep.name = name ∧
      rep.source_digest = digest ∧
      (lines = [] → rep.coverage = []) ∧
      (lines ≠ [] → (rep.coverage.length : ℤ) =
        max line_count (((lines.map Prod.fst).max?).getD 0)) ∧
      (∀ l v, (l, v) ∈ lines → rep.coverage[(l - 1).toNat]? = some (some v)) ∧
      (∀ i : ℕ, i < rep.coverage.length → (∀ v : ℤ, ((i : ℤ) + 1, v) ∉ lines) →
        rep.coverage[i]? = some none) ∧
      List.Sorted (fun a b => a ≤ b) (rep.functions.map (fun f => f.name)) := by
  have hfold0 := clean_functions_foldl lines functions ([], 0)
  have hcf : excludes._clean_functions lines functions =
      (functions.filter (excludes.keepFn lines),
        ((functions.filter (fun kf => !excludes.keepFn lines kf)).length : ℤ)) := by
    unfold excludes._clean_functions
    rw [hfold0]
    simp
  -- the maximum bounds every present line number once the map is non-empty
  have hM : ∀ p ∈ lines, p.1 ≤ ((lines.map Prod.fst).max?).getD 0 := by
    intro p hp
    exact le_max?_getD (List.mem_map.mpr ⟨p, hp, rfl⟩)
  have hsize : ∀ p ∈ lines,
      p.1 - 1 < ((List.replicate (if lines.isEmpty then (0 : ℤ)
        else max line_count (((lines.map Prod.fst).max?).getD 0)).toNat
        (none : Option ℤ)).length : ℤ) := by
    intro p hp
    have hmem := hM p hp
    have hone := h2 p hp
    have hne : lines.isEmpty = false := by
      cases lines with
      | nil => exact absurd hp (List.not_mem_nil p)
      | cons q qs => rfl
    rw [List.length_replicate, hne]
    simp only [Bool.false_eq_true, if_false]
    have hmax : p.1 ≤ max line_count (((lines.map Prod.fst).max?).getD 0) :=
      le_trans hmem (le_max_right _ _)
    omega
  obtain ⟨cs', cvg', hfold, hlen, hmem, hsame⟩ :=
    cvg_foldlM lines
      (excludes.coverage_stats.clean_pre cs lines.length
        (functions.filter (excludes.keepFn lines))
        ((functions.filter (fun kf => !excludes.keepFn lines kf)).length : ℤ))
      (List.replicate (if lines.isEmpty then (0 : ℤ)
        else max line_count (((lines.map Prod.fst).max?).getD 0)).toNat none)
      hsize h2 h1
  refine ⟨cs',
    { name := name, source_digest := digest, coverage := cvg',
      functions := (List.insertionSort (fun a b => a ≤ b)
          ((functions.filter (excludes.keepFn lines)).map Prod.fst)).filterMap
        (fun k => dictGet k (functions.filter (excludes.keepFn lines))) },
    ?_, rfl, rfl, ?_, ?_, ?_, ?_, ?_⟩
  · unfold excludes.coverage_stats.clean_file_report
    rw [hcf]
    show (lines.foldlM
        (fun (p : excludes.coverage_stats × List (Option ℤ)) lv => do
          let c := if lv.2 ≠ 0 then
              { p.1 with lines := { p.1.lines with
                covered := p.1.lines.covered + 1 } }
            else p.1
          let cvg2 ← excludes.pyListSet p.2 (lv.1 - 1) (some lv.2)
          pure (c, cvg2))
        (excludes.coverage_stats.clean_pre cs lines.length
            (functions.filter (excludes.keepFn lines))
            ((functions.filter (fun kf => !excludes.keepFn lines kf)).length : ℤ),
          List.replicate (if lines.isEmpty then (0 : ℤ)
            else max line_count (((lines.map Prod.fst).max?).getD 0)).toNat none)
        >>= fun q =>
          pure (q.1,
            ({ name := name, source_digest := digest, coverage := q.2,
               functions := (List.insertionSort (fun a b => a ≤ b)
                   ((functions.filter (excludes.keepFn lines)).map Prod.fst)).filterMap
                 (fun k => dictGet k (functions.filter (excludes.keepFn lines))) } :
              excludes.file_report))) = _
    rw [hfold, except_ok_bind]
    rfl
  · intro hnil
    subst hnil
    have hlen0 : cvg'.length = 0 := by
      rw [hlen]
      rfl
    exact List.length_eq_zero.mp hlen0
  · intro hne
    have hb : lines.isEmpty = false := by
      cases lines with
      | nil => exact absurd rfl hne
      | cons q qs => rfl
    obtain ⟨p, hp⟩ : ∃ p, p ∈ lines := by
      cases lines with
      | nil => exact absurd rfl hne
      | cons q qs => exact ⟨q, List.mem_cons_self q qs⟩
    have h1p : (1 : ℤ) ≤ p.1 := h2 p hp
    have hMp : p.1 ≤ ((lines.map Prod.fst).max?).getD 0 := hM p hp
    rw [hlen, List.length_replicate, hb]
    simp only [Bool.false_eq_true, if_false]
    have : (1 : ℤ) ≤ max line_count (((lines.map Prod.fst).max?).getD 0) :=
      le_trans h1p (le_trans hMp (le_max_right _ _))
    omega
  · intro l v hmem'
    exact hmem l v hmem'
  · intro i hi hnone
    have huntouched : ∀ l v, (l, v) ∈ lines → (l - 1).toNat ≠ i := by
      intro l v hin hidx
      have hone := h2 (l, v) hin
      have : l = (i : ℤ) + 1 := by omega
      exact hnone v (this ▸ hin)
    have hi' : i < cvg'.length := hi
    rw [hlen, List.length_replicate] at hi'
    show cvg'[i]? = some none
    rw [hsame i huntouched]
    rw [List.getElem?_replicate]
    rw [if_pos hi']
  · have hname' : ∀ kf ∈ functions.filter (excludes.keepFn lines), kf.2.name = kf.1 :=
      fun kf hkf => h3 kf (List.mem_of_mem_filter hkf)
    have hsub := map_name_filterMap_sublist _ hname'
      (List.insertionSort (fun a b => a ≤ b)
        ((functions.filter (excludes.keepFn lines)).map Prod.fst))
    have hsorted : List.Sorted (fun a b => a ≤ b)
        (List.insertionSort (fun a b => a ≤ b)
          ((functions.filter (excludes.keepFn lines)).map Prod.fst)) :=
      List.sorted_insertionSort (fun a b => a ≤ b) _
    exact List.Pairwise.sublist hsub hsorted

/-- Witness for the amended claim C7 on a concrete record. -/
theorem claim_C7_file_record_shape_witness :
    ∃ (cs' : excludes.coverage_stats) (rep : excludes.file_report),
      excludes.coverage_stats.clean_file_report {} "n" "d" 3 [(2, 5), (1, 0)]
          [("f", { name := "f", count := 2, start_line := some 1 })] =
        .ok (cs', rep) ∧
      rep.name = "n" ∧
      rep.source_digest = "d" ∧
      ([((2 : ℤ), (5 : ℤ)), (1, 0)] = [] → rep.coverage = []) ∧
      ([((2 : ℤ), (5 : ℤ)), (1, 0)] ≠ [] → (rep.coverage.length : ℤ) =
        max 3 ((([((2 : ℤ), (5 : ℤ)), (1, 0)].map Prod.fst).max?).getD 0)) ∧
      (∀ l v, (l, v) ∈ [((2 : ℤ), (5 : ℤ)), (1, 0)] →
        rep.coverage[(l - 1).toNat]? = some (some v)) ∧
      (∀ i : ℕ, i < rep.coverage.length →
        (∀ v : ℤ, ((i : ℤ) + 1, v) ∉ [((2 : ℤ), (5 : ℤ)), (1, 0)]) →
        rep.coverage[i]? = some none) ∧
      List.Sorted (fun a b => a ≤ b) (rep.functions.map (fun f => f.name)) :=
  claim_C7_file_record_shape {} "n" "d" 3 [(2, 5), (1, 0)]
    [("f", { name := "f", count := 2, start_line := some 1 })]
    (by decide) (by decide) (by decide)

/-! ## Claim C4 -/

/-- The max-fold of `_line_coverage_stats` never fails once the accumulator
holds a value. -/
theorem maxStep_foldlM_some (run : List llvm.CoverageSegment) :
    ∀ v : ℤ, ∃ v' : ℤ,
      run.foldlM llvm.maxStep (some v) = Except.ok (some v') := by
  induction run with
  | nil => exact fun v => ⟨v, rfl⟩
  | cons s tl ih =>
    intro v
    rw [List.foldlM_cons]
    by_cases h : llvm._is_start_of_region s = true
    · have hstep : llvm.maxStep (some v) s = Except.ok (some (max v s.count)) := by
        unfold llvm.maxStep
        rw [if_pos h]
      rw [hstep, except_ok_bind]
      exact ih (max v s.count)
    · have hstep : llvm.maxStep (some v) s = Except.ok (some v) := by
        unfold llvm.maxStep
        rw [if_neg h]
      rw [hstep, except_ok_bind]
      exact ih v

/-- The max-fold started from `None` fails at the first start-of-region
segment. -/
theorem maxStep_foldlM_none (run : List llvm.CoverageSegment)
    (h : ∃ s ∈ run, llvm._is_start_of_region s = true) :
    run.foldlM llvm.maxStep (none : Option ℤ) =
      Except.error "TypeError: max of int and NoneType" := by
  induction run with
  | nil =>
    obtain ⟨s, hs, _⟩ := h
    exact absurd hs (List.not_mem_nil s)
  | cons s tl ih =>
    rw [List.foldlM_cons]
    by_cases hsor : llvm._is_start_of_region s = true
    · have hstep : llvm.maxStep none s =
          Except.error "TypeError: max of int and NoneType" := by
        unfold llvm.maxStep
        rw [if_pos hsor]
      rw [hstep, except_error_bind]
    · have hstep : llvm.maxStep none s = Except.ok none := by
        unfold llvm.maxStep
        rw [if_neg hsor]
      rw [hstep, except_ok_bind]
      apply ih
      obtain ⟨t, ht, htt⟩ := h
      rcases List.mem_cons.mp ht with heq | htl
      · rw [heq] at htt
        exact absurd htt hsor
      · exact ⟨t, htl, htt⟩

/-- With no start-of-region segment the short-circuiting counter loop of
`_line_coverage_stats` keeps its accumulator. -/
theorem minRegion_foldl_fixed :
    ∀ (run : List llvm.CoverageSegment),
      (∀ s ∈ run, ¬ llvm._is_start_of_region s = true) →
      ∀ n : ℕ, run.foldl
        (fun n s => if 1 < n then n
          else if llvm._is_start_of_region s then n + 1 else n) n = n := by
  intro run
  induction run with
  | nil => exact fun _ _ => rfl
  | cons s tl ih =>
    intro hno n
    rw [List.foldl_cons]
    have h1 : (if 1 < n then n
        else if llvm._is_start_of_region s = true then n + 1 else n) = n := by
      by_cases hn : 1 < n
      · rw [if_pos hn]
      · rw [if_neg hn, if_neg (hno s (List.mem_cons_self s tl))]
    rw [h1]
    exact ih (fun t ht => hno t (List.mem_cons_of_mem s ht)) n

/-- A positive `min_region_count` exhibits a start-of-region segment. -/
theorem exists_sor_of_minRegion_pos (run : List llvm.CoverageSegment)
    (h : 0 < llvm.minRegionCount run) :
    ∃ s ∈ run, llvm._is_start_of_region s = true := by
  by_contra hno
  push_neg at hno
  have hz : llvm.minRegionCount run = 0 := by
    unfold llvm.minRegionCount
    exact minRegion_foldl_fixed run (fun s hs => by simpa using hno s hs) 0
  omega

/-- Characterisation of a successful `_line_coverage_stats` result: the
returned line is the requested one, the entry carries a count exactly when
the `mapped` flag holds, and on an empty run the count is inherited from a
counted wrapped segment. -/
theorem stats_char (r : List llvm.CoverageSegment)
    (w : Option llvm.CoverageSegment) (l : ℤ) (lcs : llvm.LCS)
    (h : llvm._line_coverage_stats r w l = .ok lcs) :
    lcs.line = l ∧
    lcs.execution_count.isSome = llvm.isMapped r w ∧
    (r = [] → lcs.execution_count =
      w.elim none (fun w0 => if w0.has_count then some w0.count else none)) := by
  cases hm : llvm.isMapped r w with
  | false =>
    have hr : llvm._line_coverage_stats r w l = .ok { line := l } := by
      unfold llvm._line_coverage_stats
      rw [hm]
      rfl
    rw [hr] at h
    injection h with h
    rw [← h]
    refine ⟨rfl, rfl, ?_⟩
    intro hr0
    rw [hr0] at hm
    cases w with
    | none => rfl
    | some w0 =>
      have hc : w0.has_count = false := by
        unfold llvm.isMapped llvm.startOfSkippedRegion llvm.minRegionCount at hm
        simpa using hm
      show (none : Option ℤ) = if w0.has_count then some w0.count else none
      rw [hc]
      rfl
  | true =>
    have hr : llvm._line_coverage_stats r w l =
        (r.foldlM llvm.maxStep (w.map (fun s => s.count))) >>=
          (fun ec => pure { line := l, execution_count := ec }) := by
      unfold llvm._line_coverage_stats
      rw [hm]
      rfl
    rw [hr] at h
    cases w with
    | some w0 =>
      obtain ⟨v', hv⟩ := maxStep_foldlM_some r w0.count
      rw [show Option.map (fun s => s.count) (some w0) = some w0.count from rfl,
        hv, except_ok_bind] at h
      have h' : Except.ok { line := l, execution_count := some v' } =
          (Except.ok lcs : Except String llvm.LCS) := h
      injection h' with h'
      rw [← h']
      refine ⟨rfl, rfl, ?_⟩
      intro hr0
      rw [hr0] at hv hm
      have hv' : (Except.ok (some w0.count) : Except String (Option ℤ)) =
          Except.ok (some v') := hv
      injection hv' with hv'
      injection hv' with hv'
      have hc : w0.has_count = true := by
        unfold llvm.isMapped llvm.startOfSkippedRegion llvm.minRegionCount at hm
        simpa using hm
      show some v' = if w0.has_count then some w0.count else none
      rw [hc, ← hv']
      rfl
    | none =>
      have hmr : 0 < llvm.minRegionCount r := by
        unfold llvm.isMapped at hm
        simp only [Bool.and_eq_true, Bool.or_eq_true, decide_eq_true_eq] at hm
        rcases hm.2 with hcontra | hpos
        · exact absurd hcontra (by simp)
        · exact hpos
      rw [show Option.map (fun s => s.count)
            (none : Option llvm.CoverageSegment) = none from rfl,
        maxStep_foldlM_none r (exists_sor_of_minRegion_pos r hmr),
        except_error_bind] at h
      exact Except.noConfusion h

/-- `_line_coverage_stats` succeeds whenever a wrapped segment exists, and
with no wrapped segment it succeeds on every run that does not open a fresh
region outside a skipped one. -/
theorem stats_total (r : List llvm.CoverageSegment)
    (w : Option llvm.CoverageSegment) (l : ℤ)
    (hw : w = none → ¬(llvm.startOfSkippedRegion r = false ∧
      0 < llvm.minRegionCount r)) :
    ∃ lcs, llvm._line_coverage_stats r w l = .ok lcs := by
  cases hm : llvm.isMapped r w with
  | false =>
    refine ⟨{ line := l }, ?_⟩
    unfold llvm._line_coverage_stats
    rw [hm]
    rfl
  | true =>
    cases w with
    | some w0 =>
      obtain ⟨v', hv⟩ := maxStep_foldlM_some r w0.count
      refine ⟨{ line := l, execution_count := some v' }, ?_⟩
      unfold llvm._line_coverage_stats
      rw [hm]
      show (r.foldlM llvm.maxStep (Option.map (fun s => s.count) (some w0))) >>=
          (fun ec => (Except.ok { line := l, execution_count := ec } :
            Except String llvm.LCS)) =
        Except.ok { line := l, execution_count := some v' }
      rw [show Option.map (fun s => s.count) (some w0) = some w0.count from rfl,
        hv, except_ok_bind]
    | none =>
      exfalso
      apply hw rfl
      unfold llvm.isMapped at hm
      simp only [Bool.and_eq_true, Bool.or_eq_true, Bool.not_eq_true',
        decide_eq_true_eq] at hm
      refine ⟨hm.1, ?_⟩
      rcases hm.2 with hcontra | hpos
      · exact absurd hcontra (by simp)
      · exact hpos

/-- Membership of the last element reported by `getLast?`. -/
theorem mem_of_getLast?_eq {α : Type} {l : List α} {a : α}
    (h : l.getLast? = some a) : a ∈ l := by
  induction l with
  | nil => exact Option.noConfusion h
  | cons x xs ih =>
    cases xs with
    | nil =>
      have h' : some x = some a := h
      injection h' with h'
      rw [← h']
      exact List.mem_cons_self x []
    | cons y ys =>
      rw [List.getLast?_cons_cons] at h
      exact List.mem_cons_of_mem x (ih h)

/-- For a line-sorted segment list bounded below by the cursor, the segments
of the cursor line form the leading run. -/
theorem runAt_eq_takeWhile :
    ∀ (cov : List llvm.CoverageSegment) (line : ℤ),
      List.Pairwise (fun s t => s.line ≤ t.line) cov →
      (∀ s ∈ cov, line ≤ s.line) →
      cov.filter (fun t => t.line == line) =
        cov.takeWhile (fun t => t.line == line) := by
  intro cov
  induction cov with
  | nil => intro _ _ _; rfl
  | cons s tl ih =>
    intro line hp hlb
    rw [List.filter_cons, List.takeWhile_cons]
    by_cases h : (s.line == line) = true
    · rw [if_pos h, if_pos h,
        ih line (List.pairwise_cons.mp hp).2
          (fun t ht => hlb t (List.mem_cons_of_mem s ht))]
    · rw [if_neg h, if_neg h]
      apply List.filter_eq_nil_iff.mpr
      intro t ht hc
      have h1 : line ≤ s.line := hlb s (List.mem_cons_self s tl)
      have h2 : s.line ≠ line := fun he => h (beq_iff_eq.mpr he)
      have h3 : s.line ≤ t.line := (List.pairwise_cons.mp hp).1 t ht
      have h4 : t.line = line := beq_iff_eq.mp hc
      omega

/-- With every segment at or above the cursor nothing is wrapped yet. -/
theorem wrappedAt_of_lb (cov : List llvm.CoverageSegment)
    (w : Option llvm.CoverageSegment) (line : ℤ)
    (hlb : ∀ s ∈ cov, line ≤ s.line) :
    llvm.wrappedAt cov w line = w := by
  unfold llvm.wrappedAt
  have hnil : cov.filter (fun t => decide (t.line < line)) = [] := by
    apply List.filter_eq_nil_iff.mpr
    intro t ht
    simpa using not_lt.mpr (hlb t ht)
  rw [hnil]
  rfl

/-- Dropping a same-line run in front does not change later runs. -/
theorem runAt_append_line (run rest : List llvm.CoverageSegment) (line l : ℤ)
    (hall : ∀ t ∈ run, t.line = line) (hne : l ≠ line) :
    llvm.runAt (run ++ rest) l = llvm.runAt rest l := by
  unfold llvm.runAt
  rw [List.filter_append]
  have h0 : run.filter (fun t => t.line == l) = [] := by
    apply List.filter_eq_nil_iff.mpr
    intro t ht hc
    have h4 : t.line = l := beq_iff_eq.mp hc
    rw [hall t ht] at h4
    exact hne h4.symm
  rw [h0, List.nil_append]

/-- Dropping a same-line run in front replaces the fallback wrapped segment
by the run's last segment. -/
theorem wrappedAt_append_line (run rest : List llvm.CoverageSegment)
    (w : Option llvm.CoverageSegment) (g : llvm.CoverageSegment) (line l : ℤ)
    (hall : ∀ t ∈ run, t.line = line) (hg : run.getLast? = some g)
    (hl : line < l) :
    llvm.wrappedAt (run ++ rest) w l = llvm.wrappedAt rest (some g) l := by
  unfold llvm.wrappedAt
  rw [List.filter_append]
  have h1 : run.filter (fun t => decide (t.line < l)) = run := by
    apply List.filter_eq_self.mpr
    intro t ht
    rw [hall t ht]
    exact decide_eq_true hl
  have h2 : (run ++ rest.filter (fun t => decide (t.line < l))).getLast? =
      (rest.filter (fun t => decide (t.line < l))).getLast?.or run.getLast? :=
    List.getLast?_append
  rw [h1, h2, hg]
  cases hfl : (rest.filter (fun t => decide (t.line < l))).getLast? with
  | some s => rw [Option.or_some]
  | none => rw [Option.none_or]

/-- After removing the cursor run, every remaining segment of a line-sorted
list lies strictly above the cursor. -/
theorem dropWhile_line_gt :
    ∀ (cov : List llvm.CoverageSegment) (line : ℤ),
      List.Pairwise (fun s t => s.line ≤ t.line) cov →
      (∀ s ∈ cov, line ≤ s.line) →
      ∀ t ∈ cov.dropWhile (fun t => t.line == line), line + 1 ≤ t.line := by
  intro cov
  induction cov with
  | nil => intro _ _ _ t ht; exact absurd ht (List.not_mem_nil t)
  | cons s tl ih =>
    intro line hp hlb t ht
    rw [List.dropWhile_cons] at ht
    by_cases hs : (s.line == line) = true
    · rw [if_pos hs] at ht
      exact ih line (List.pairwise_cons.mp hp).2
        (fun u hu => hlb u (List.mem_cons_of_mem s hu)) t ht
    · rw [if_neg hs] at ht
      have h1 : line ≤ s.line := hlb s (List.mem_cons_self s tl)
      have h2 : s.line ≠ line := fun he => hs (beq_iff_eq.mpr he)
      rcases List.mem_cons.mp ht with heq | htl
      · rw [heq]; omega
      · have h3 : s.line ≤ t.line := (List.pairwise_cons.mp hp).1 t htl
        omega

/-- The fuel-driven sweep of `_line_coverage_iterator` on a line-sorted
segment list bounded below by the cursor: given enough fuel, and barring the
`TypeError` of a first line that opens a region with nothing wrapped yet, it
succeeds and returns, for each consecutive line, exactly the
`_line_coverage_stats` of that line's run and wrapped segment. -/
theorem sweepAux_char :
    ∀ (fuel : ℕ) (cov : List llvm.CoverageSegment)
      (w : Option llvm.CoverageSegment) (line : ℤ),
      List.Pairwise (fun s t => s.line ≤ t.line) cov →
      (∀ s ∈ cov, line ≤ s.line) →
      (w = none → llvm.sweepCrashes cov = false) →
      (cov.getLast?.elim (line - 1) (fun s => s.line) - line).toNat + 1 +
        cov.length ≤ fuel →
      ∃ res : List llvm.LCS,
        llvm.sweepAux fuel cov w line = .ok res ∧
        (res.length : ℤ) =
          cov.getLast?.elim (line - 1) (fun s => s.line) - line + 1 ∧
        ∀ i : ℕ, i < res.length → ∃ lcs, res[i]? = some lcs ∧
          llvm._line_coverage_stats (llvm.runAt cov (line + i))
            (llvm.wrappedAt cov w (line + i)) (line + i) = .ok lcs := by
  intro fuel
  induction fuel with
  | zero =>
    intro cov w line _ _ _ hfuel
    omega
  | succ fuel ih =>
    intro cov w line hp hlb hw hfuel
    cases cov with
    | nil =>
      refine ⟨[], rfl, ?_, ?_⟩
      · have h0 : (([] : List llvm.CoverageSegment).getLast?.elim (line - 1)
            (fun s => s.line)) = line - 1 := rfl
        rw [h0]
        simp only [List.length_nil, Nat.cast_zero]
        omega
      · intro i hi
        rw [List.length_nil] at hi
        exact absurd hi (Nat.not_lt_zero i)
    | cons s tl =>
      obtain ⟨lastSeg, hlast⟩ : ∃ x, (s :: tl).getLast? = some x :=
        Option.isSome_iff_exists.mp
          (List.getLast?_isSome.mpr (List.cons_ne_nil s tl))
      have hLs : (s :: tl).getLast?.elim (line - 1) (fun x => x.line) =
          lastSeg.line := by rw [hlast]; rfl
      rw [hLs, List.length_cons] at hfuel
      have hlastmem : lastSeg ∈ s :: tl := mem_of_getLast?_eq hlast
      have hstep : llvm.sweepAux (fuel + 1) (s :: tl) w line =
          (llvm._line_coverage_stats
              ((s :: tl).takeWhile (fun t => t.line == line)) w line) >>=
            fun lcs =>
              (llvm.sweepAux fuel
                  ((s :: tl).dropWhile (fun t => t.line == line))
                  (if ((s :: tl).takeWhile (fun t => t.line == line)).isEmpty
                    then w
                    else ((s :: tl).takeWhile
                      (fun t => t.line == line)).getLast?)
                  (line + 1)) >>=
                fun rec_tl => Except.ok (lcs :: rec_tl) := rfl
      by_cases hs : (s.line == line) = true
      · -- the cursor line carries a non-empty run
        have hsl : s.line = line := beq_iff_eq.mp hs
        have hrun1 : (s :: tl).takeWhile (fun t => t.line == line) =
            s :: tl.takeWhile (fun t => t.line == line) := by
          rw [List.takeWhile_cons, if_pos hs]
        have hrest : (s :: tl).dropWhile (fun t => t.line == line) =
            tl.dropWhile (fun t => t.line == line) := by
          rw [List.dropWhile_cons, if_pos hs]
        obtain ⟨g, hg⟩ : ∃ g,
            ((s :: tl).takeWhile (fun t => t.line == line)).getLast? = some g :=
          Option.isSome_iff_exists.mp (List.getLast?_isSome.mpr
            (by rw [hrun1]; exact List.cons_ne_nil _ _))
        have hallrun : ∀ t ∈ (s :: tl).takeWhile (fun t => t.line == line),
            t.line = line := by
          intro t ht
          have h' := List.mem_takeWhile_imp ht
          exact beq_iff_eq.mp h'
        have hsplit : (s :: tl).takeWhile (fun t => t.line == line) ++
            (s :: tl).dropWhile (fun t => t.line == line) = s :: tl :=
          List.takeWhile_append_dropWhile _ _
        have hrunAt : llvm.runAt (s :: tl) line =
            (s :: tl).takeWhile (fun t => t.line == line) := by
          unfold llvm.runAt
          exact runAt_eq_takeWhile (s :: tl) line hp hlb
        have hwrAt : llvm.wrappedAt (s :: tl) w line = w :=
          wrappedAt_of_lb _ w line hlb
        have hhead : (s :: tl).head?.elim 0 (fun x => x.line) = line := hsl
        have hcrash : w = none →
            ¬(llvm.startOfSkippedRegion
                ((s :: tl).takeWhile (fun t => t.line == line)) = false ∧
              0 < llvm.minRegionCount
                ((s :: tl).takeWhile (fun t => t.line == line))) := by
          intro hwn hcc
          have hsc := hw hwn
          unfold llvm.sweepCrashes at hsc
          rw [hhead, hrunAt] at hsc
          have hsc' : (!llvm.startOfSkippedRegion
              ((s :: tl).takeWhile (fun t => t.line == line)) &&
              decide (0 < llvm.minRegionCount
                ((s :: tl).takeWhile (fun t => t.line == line)))) = false := hsc
          rcases hcc with ⟨h1, h2⟩
          rw [h1, decide_eq_true h2] at hsc'
          simp at hsc'
        obtain ⟨lcs0, hstats⟩ :=
          stats_total ((s :: tl).takeWhile (fun t => t.line == line)) w line
            hcrash
        have hWempty :
            ((s :: tl).takeWhile (fun t => t.line == line)).isEmpty = false := by
          rw [hrun1]
          rfl
        have heqW : (if ((s :: tl).takeWhile (fun t => t.line == line)).isEmpty
              then w
              else ((s :: tl).takeWhile (fun t => t.line == line)).getLast?) =
            some g := by
          rw [hWempty, if_neg Bool.false_ne_true, hg]
        have hptl := List.Pairwise.sublist
          (List.dropWhile_sublist (fun t => t.line == line)) hp
        have hlbrest := dropWhile_line_gt (s :: tl) line hp hlb
        have hwrec : ((some g : Option llvm.CoverageSegment) = none →
            llvm.sweepCrashes
              ((s :: tl).dropWhile (fun t => t.line == line)) = false) :=
          fun h => Option.noConfusion h
        have hlenrest :
            ((s :: tl).dropWhile (fun t => t.line == line)).length ≤
              tl.length := by
          rw [hrest]
          exact List.Sublist.length_le
            (List.dropWhile_sublist
              (fun t : llvm.CoverageSegment => t.line == line))
        have hlastline :
            ((s :: tl).dropWhile (fun t => t.line == line)) = [] →
              lastSeg.line = line := by
          intro hrr
          have h' := hsplit
          rw [hrr, List.append_nil] at h'
          exact hallrun lastSeg (by rw [h']; exact hlastmem)
        have hLrest :
            ((s :: tl).dropWhile (fun t => t.line == line)) ≠ [] →
              ((s :: tl).dropWhile (fun t => t.line == line)).getLast? =
                some lastSeg := by
          intro hrr
          obtain ⟨x, hx⟩ : ∃ x,
              ((s :: tl).dropWhile
                (fun t => t.line == line)).getLast? = some x :=
            Option.isSome_iff_exists.mp (List.getLast?_isSome.mpr hrr)
          have h2' : ((s :: tl).takeWhile (fun t => t.line == line) ++
              (s :: tl).dropWhile (fun t => t.line == line)).getLast? =
              ((s :: tl).dropWhile
                (fun t => t.line == line)).getLast?.or
                ((s :: tl).takeWhile
                  (fun t => t.line == line)).getLast? :=
            List.getLast?_append
          rw [hsplit, hlast, hx, Option.or_some] at h2'
          rw [hx]
          exact h2'.symm
        have hlastge : line ≤ lastSeg.line := hlb lastSeg hlastmem
        have hfuel' :
            (((s :: tl).dropWhile (fun t => t.line == line)).getLast?.elim
                ((line + 1) - 1) (fun x => x.line) - (line + 1)).toNat + 1 +
              ((s :: tl).dropWhile (fun t => t.line == line)).length ≤
                fuel := by
          cases hrr : (s :: tl).dropWhile (fun t => t.line == line) with
          | nil =>
            have h0 : (([] : List llvm.CoverageSegment).getLast?.elim
                ((line + 1) - 1) (fun x => x.line)) = (line + 1) - 1 := rfl
            rw [h0, List.length_nil]
            omega
          | cons r0 rtl =>
            have hL' := hLrest (by rw [hrr]; exact List.cons_ne_nil _ _)
            rw [hrr] at hL' hlenrest
            rw [hL']
            have h0 : ((some lastSeg).elim ((line + 1) - 1)
                (fun x : llvm.CoverageSegment => x.line)) = lastSeg.line := rfl
            rw [h0]
            omega
        obtain ⟨res', hrec, hlen', hent⟩ :=
          ih ((s :: tl).dropWhile (fun t => t.line == line)) (some g)
            (line + 1) hptl hlbrest hwrec hfuel'
        refine ⟨lcs0 :: res', ?_, ?_, ?_⟩
        · rw [hstep]
          simp only [hstats, except_ok_bind, heqW, hrec]
        · rw [List.length_cons, hLs]
          cases hrr : (s :: tl).dropWhile (fun t => t.line == line) with
          | nil =>
            have hll := hlastline hrr
            rw [hrr] at hlen'
            have h0 : (([] : List llvm.CoverageSegment).getLast?.elim
                ((line + 1) - 1) (fun x => x.line)) = (line + 1) - 1 := rfl
            rw [h0] at hlen'
            rw [hll]
            omega
          | cons r0 rtl =>
            have hL' := hLrest (by rw [hrr]; exact List.cons_ne_nil _ _)
            rw [hrr] at hL' hlen'
            rw [hL'] at hlen'
            have h0 : ((some lastSeg).elim ((line + 1) - 1)
                (fun x : llvm.CoverageSegment => x.line)) = lastSeg.line := rfl
            rw [h0] at hlen'
            omega
        · intro i hi
          cases i with
          | zero =>
            refine ⟨lcs0, List.getElem?_cons_zero, ?_⟩
            have hz : line + ((0 : ℕ) : ℤ) = line := by simp
            rw [hz, hrunAt, hwrAt]
            exact hstats
          | succ j =>
            rw [List.length_cons] at hi
            have hj : j < res'.length := Nat.lt_of_succ_lt_succ hi
            obtain ⟨lcs, hj1, hj2⟩ := hent j hj
            refine ⟨lcs, ?_, ?_⟩
            · rw [List.getElem?_cons_succ]
              exact hj1
            · have hcast : line + ((j + 1 : ℕ) : ℤ) = line + 1 + (j : ℕ) := by
                push_cast
                ring
              rw [hcast]
              have hne : line + 1 + ((j : ℕ) : ℤ) ≠ line := by omega
              have hlgt : line < line + 1 + ((j : ℕ) : ℤ) := by omega
              rw [← hsplit,
                runAt_append_line _ _ line _ hallrun hne,
                wrappedAt_append_line _ _ w g line _ hallrun hg hlgt]
              exact hj2
      · -- no segment lies on the cursor line
        have hrun0 : (s :: tl).takeWhile (fun t => t.line == line) = [] := by
          rw [List.takeWhile_cons, if_neg hs]
        have hrest0 : (s :: tl).dropWhile (fun t => t.line == line) =
            s :: tl := by
          rw [List.dropWhile_cons, if_neg hs]
        have hrunAt0 : llvm.runAt (s :: tl) line = [] := by
          unfold llvm.runAt
          rw [runAt_eq_takeWhile (s :: tl) line hp hlb, hrun0]
        have hwrAt : llvm.wrappedAt (s :: tl) w line = w :=
          wrappedAt_of_lb _ w line hlb
        obtain ⟨lcs0, hstats0⟩ := stats_total [] w line
          (fun _ hcc => absurd hcc.2 (by decide))
        have hlb' : ∀ t ∈ s :: tl, line + 1 ≤ t.line := by
          have h' := dropWhile_line_gt (s :: tl) line hp hlb
          rw [hrest0] at h'
          exact h'
        have hfuel' :
            ((s :: tl).getLast?.elim ((line + 1) - 1) (fun x => x.line) -
              (line + 1)).toNat + 1 + (s :: tl).length ≤ fuel := by
          have hLs2 : (s :: tl).getLast?.elim ((line + 1) - 1)
              (fun x => x.line) = lastSeg.line := by rw [hlast]; rfl
          rw [hLs2, List.length_cons]
          have hge : line + 1 ≤ lastSeg.line := hlb' lastSeg hlastmem
          omega
        obtain ⟨res', hrec, hlen', hent⟩ :=
          ih (s :: tl) w (line + 1) hp hlb' hw hfuel'
        refine ⟨lcs0 :: res', ?_, ?_, ?_⟩
        · rw [hstep]
          simp only [hrun0, hstats0, except_ok_bind, List.isEmpty_nil,
            eq_self_iff_true, if_true, hrest0, hrec]
        · rw [List.length_cons, hLs]
          have hLs2 : (s :: tl).getLast?.elim ((line + 1) - 1)
              (fun x => x.line) = lastSeg.line := by rw [hlast]; rfl
          rw [hLs2] at hlen'
          omega
        · intro i hi
          cases i with
          | zero =>
            refine ⟨lcs0, List.getElem?_cons_zero, ?_⟩
            have hz : line + ((0 : ℕ) : ℤ) = line := by simp
            rw [hz, hrunAt0, hwrAt]
            exact hstats0
          | succ j =>
            rw [List.length_cons] at hi
            have hj : j < res'.length := Nat.lt_of_succ_lt_succ hi
            obtain ⟨lcs, hj1, hj2⟩ := hent j hj
            refine ⟨lcs, ?_, ?_⟩
            · rw [List.getElem?_cons_succ]
              exact hj1
            · have hcast : line + ((j + 1 : ℕ) : ℤ) = line + 1 + (j : ℕ) := by
                push_cast
                ring
              rw [hcast]
              exact hj2

/-- Claim C4 counterexample.  First: on the line-ordered segment list with
segments only at lines 1 and 3 (the line-1 segment counted, not an entry),
line 2 has an empty run yet its sweep result is mapped and carries the
wrapped count 5, against the claim that a zero-segment line is unmapped.
Second: on an ordered, non-empty list whose first line opens a region while
nothing is wrapped yet, the sweep raises `TypeError` instead of yielding one
result per line. -/
theorem claim_C4_counterexample :
    (List.Pairwise (fun s t => s.line ≤ t.line)
        ([⟨1, 1, 5, true, false, false⟩, ⟨3, 1, 0, false, false, false⟩] :
          List llvm.CoverageSegment) ∧
      llvm.runAt
        [⟨1, 1, 5, true, false, false⟩, ⟨3, 1, 0, false, false, false⟩]
        2 = [] ∧
      llvm._line_coverage_iterator
        [⟨1, 1, 5, true, false, false⟩, ⟨3, 1, 0, false, false, false⟩] =
        .ok [{ line := 1 }, { line := 2, execution_count := some 5 },
          { line := 3, execution_count := some 5 }]) ∧
    (List.Pairwise (fun s t => s.line ≤ t.line)
        ([⟨1, 1, 0, false, false, false⟩, ⟨1, 5, 7, true, true, false⟩] :
          List llvm.CoverageSegment) ∧
      llvm._line_coverage_iterator
        [⟨1, 1, 0, false, false, false⟩, ⟨1, 5, 7, true, true, false⟩] =
        .error "TypeError: max of int and NoneType") :=
  ⟨⟨by decide, rfl, rfl⟩, ⟨by decide, rfl⟩⟩

/-- Claim C4 as amended: for a non-empty, line-ordered segment list on which
the first line does not open a region with nothing wrapped yet (otherwise
`_line_coverage_stats` raises `TypeError`), the sweep yields exactly one
result per line of the segment span, namely the `_line_coverage_stats` of
that line's run and wrapped segment; a line's result is mapped iff its run
does not start a skipped region and (the wrapped segment has a count or the
run's `min_region_count` is positive); and a line whose run has zero
segments is mapped with the wrapped count whenever the wrapped segment has
a count -- it is not unconditionally unmapped. -/
theorem claim_C4_sweep_characterisation (coverage : List llvm.CoverageSegment)
    (hs : List.Pairwise (fun s t => s.line ≤ t.line) coverage)
    (hne : coverage ≠ [])
    (hnc : llvm.sweepCrashes coverage = false) :
    ∃ res : List llvm.LCS,
      llvm._line_coverage_iterator coverage = .ok res ∧
      (res.length : ℤ) =
        coverage.getLast?.elim 0 (fun s => s.line) -
          coverage.head?.elim 0 (fun s => s.line) + 1 ∧
      (∀ i : ℕ, i < res.length → ∃ lcs, res[i]? = some lcs ∧
        lcs.line = coverage.head?.elim 0 (fun s => s.line) + i ∧
        llvm._line_coverage_stats (llvm.runAt coverage lcs.line)
          (llvm.wrappedAt coverage none lcs.line) lcs.line = .ok lcs ∧
        lcs.execution_count.isSome =
          llvm.isMapped (llvm.runAt coverage lcs.line)
            (llvm.wrappedAt coverage none lcs.line) ∧
        (llvm.runAt coverage lcs.line = [] →
          lcs.execution_count =
            (llvm.wrappedAt coverage none lcs.line).elim none
              (fun w0 => if w0.has_count then some w0.count else none))) := by
  cases coverage with
  | nil => exact absurd rfl hne
  | cons s tl =>
    obtain ⟨lastSeg, hlast⟩ : ∃ x, (s :: tl).getLast? = some x :=
      Option.isSome_iff_exists.mp
        (List.getLast?_isSome.mpr (List.cons_ne_nil s tl))
    have hlb : ∀ t ∈ s :: tl, s.line ≤ t.line := by
      intro t ht
      rcases List.mem_cons.mp ht with heq | htl
      · rw [heq]
      · exact (List.pairwise_cons.mp hs).1 t htl
    have hfuel :
        ((s :: tl).getLast?.elim
            (((s :: tl).head?.elim 0 (fun x => x.line)) - 1) (fun x => x.line) -
          ((s :: tl).head?.elim 0 (fun x => x.line))).toNat + 1 +
          (s :: tl).length ≤
        (((s :: tl).getLast?.elim 0 (fun x => x.line)) -
          ((s :: tl).head?.elim 0 (fun x => x.line))).toNat + 1 +
          (s :: tl).length := by
      rw [hlast]
      exact le_refl _
    obtain ⟨res, hok, hlen, hent⟩ :=
      sweepAux_char
        ((((s :: tl).getLast?.elim 0 (fun x => x.line)) -
          ((s :: tl).head?.elim 0 (fun x => x.line))).toNat + 1 +
          (s :: tl).length)
        (s :: tl) none ((s :: tl).head?.elim 0 (fun x => x.line))
        hs hlb (fun _ => hnc) hfuel
    refine ⟨res, hok, ?_, ?_⟩
    · rw [hlast] at hlen ⊢
      exact hlen
    · intro i hi
      obtain ⟨lcs, h1, h2⟩ := hent i hi
      obtain ⟨hline, hmap, hempty⟩ := stats_char _ _ _ _ h2
      refine ⟨lcs, h1, hline, ?_, ?_, ?_⟩
      · rw [hline]
        exact h2
      · rw [hline]
        exact hmap
      · rw [hline]
        exact hempty

/-- Witness for the amended claim C4 on a concrete ordered segment list. -/
theorem claim_C4_sweep_characterisation_witness :
    ∃ res : List llvm.LCS,
      llvm._line_coverage_iterator
        [⟨1, 1, 5, true, false, false⟩, ⟨3, 1, 0, false, false, false⟩] =
        .ok res ∧
      (res.length : ℤ) =
        ([⟨1, 1, 5, true, false, false⟩, ⟨3, 1, 0, false, false, false⟩] :
            List llvm.CoverageSegment).getLast?.elim 0 (fun s => s.line) -
          ([⟨1, 1, 5, true, false, false⟩, ⟨3, 1, 0, false, false, false⟩] :
            List llvm.CoverageSegment).head?.elim 0 (fun s => s.line) + 1 ∧
      (∀ i : ℕ, i < res.length → ∃ lcs, res[i]? = some lcs ∧
        lcs.line =
          ([⟨1, 1, 5, true, false, false⟩, ⟨3, 1, 0, false, false, false⟩] :
            List llvm.CoverageSegment).head?.elim 0 (fun s => s.line) + i ∧
        llvm._line_coverage_stats
          (llvm.runAt
            [⟨1, 1, 5, true, false, false⟩, ⟨3, 1, 0, false, false, false⟩]
            lcs.line)
          (llvm.wrappedAt
            [⟨1, 1, 5, true, false, false⟩, ⟨3, 1, 0, false, false, false⟩]
            none lcs.line) lcs.line = .ok lcs ∧
        lcs.execution_count.isSome =
          llvm.isMapped
            (llvm.runAt
              [⟨1, 1, 5, true, false, false⟩, ⟨3, 1, 0, false, false, false⟩]
              lcs.line)
            (llvm.wrappedAt
              [⟨1, 1, 5, true, false, false⟩, ⟨3, 1, 0, false, false, false⟩]
              none lcs.line) ∧
        (llvm.runAt
            [⟨1, 1, 5, true, false, false⟩, ⟨3, 1, 0, false, false, false⟩]
            lcs.line = [] →
          lcs.execution_count =
            (llvm.wrappedAt
              [⟨1, 1, 5, true, false, false⟩, ⟨3, 1, 0, false, false, false⟩]
              none lcs.line).elim none
              (fun w0 => if w0.has_count then some w0.count else none))) :=
  claim_C4_sweep_characterisation
    [⟨1, 1, 5, true, false, false⟩, ⟨3, 1, 0, false, false, false⟩]
    (by decide) (by decide) (by decide)
